import Mathlib

/-!
Verification development for the dicom-rs DICOM encode/decode engine.

The crate under `src/core` only declares the engine modules (data model,
dictionary, transfer syntaxes, stream reader/writer, in-memory object,
file meta table); the module bodies are not part of the visible sources.
The engine is therefore modelled here from the specification, faithfully
following its data model (section 3), component contracts (section 4) and
persisted layout (section 6).  The two command-line front ends
(`src/dump/src/main.rs` and `src/fromimage/src/main.rs`) are embedded
directly from their Rust sources.
-/

namespace Dicom

/-- Wire bytes are modelled as natural numbers; every byte the encoder
emits is reduced modulo 256. -/
abbrev Byte := Nat

/-- Modelled from the spec: the undefined-length sentinel 0xFFFFFFFF
(section 3, VR invariant (b)). -/
def UNDEFINED_LEN : Nat := 4294967295

/-- Modelled from the spec: a DICOM tag is an ordered pair
(group, element) of 16-bit numbers (section 3). -/
structure Tag where
  group : Nat
  elem : Nat
deriving DecidableEq, Repr

/-- Total order on tags: by group, then by element (section 3). -/
def Tag.lt (a b : Tag) : Bool :=
  a.group < b.group || (a.group == b.group && a.elem < b.elem)

/-- Item header tag 0xFFFE,0xE000 (section 6). -/
def itemTag : Tag := ⟨0xFFFE, 0xE000⟩

/-- Item delimiter tag 0xFFFE,0xE00D (section 6). -/
def itemDelimTag : Tag := ⟨0xFFFE, 0xE00D⟩

/-- Sequence delimiter tag 0xFFFE,0xE0DD (section 6). -/
def seqDelimTag : Tag := ⟨0xFFFE, 0xE0DD⟩

/-- Pixel Data tag 0x7FE0,0x0010. -/
def pixelDataTag : Tag := ⟨0x7FE0, 0x0010⟩

/-- True when the tag is one of the three fixed delimiter tags of
section 6. -/
def Tag.isDelimiter (t : Tag) : Bool :=
  t == itemTag || t == itemDelimTag || t == seqDelimTag

/-- Serialize a 16-bit number in the byte order demanded by the
transfer syntax (big endian when the flag is set). -/
def bytesOfNat16 (be : Bool) (n : Nat) : List Byte :=
  if be then [n / 256 % 256, n % 256] else [n % 256, n / 256 % 256]

/-- Read back a 16-bit number from two wire bytes. -/
def natOfBytes16 (be : Bool) (b0 b1 : Byte) : Nat :=
  if be then b0 * 256 + b1 else b1 * 256 + b0

/-- Serialize a 32-bit number in the requested byte order. -/
def bytesOfNat32 (be : Bool) (n : Nat) : List Byte :=
  if be then
    [n / 16777216 % 256, n / 65536 % 256, n / 256 % 256, n % 256]
  else
    [n % 256, n / 256 % 256, n / 65536 % 256, n / 16777216 % 256]

/-- Read back a 32-bit number from four wire bytes. -/
def natOfBytes32 (be : Bool) (b0 b1 b2 b3 : Byte) : Nat :=
  if be then
    ((b0 * 256 + b1) * 256 + b2) * 256 + b3
  else
    ((b3 * 256 + b2) * 256 + b1) * 256 + b0

/-- Wire form of a tag: group then element, two bytes each (section 6). -/
def encodeTag (be : Bool) (t : Tag) : List Byte :=
  bytesOfNat16 be t.group ++ bytesOfNat16 be t.elem

/-- Modelled from the spec: the closed enum of standard Value
Representation codes (section 3, VR). -/
inductive VR where
  | AE | AS | AT | CS | DA | DS | DT | FL | FD | IS
  | LO | LT | OB | OD | OF | OL | OW | PN | SH | SL
  | SQ | SS | ST | TM | UC | UI | UL | UN | UR | US | UT
deriving DecidableEq, Repr

/-- VR Catalog, length-field rule: these VRs use the 4-byte length field
preceded by two reserved bytes under explicit VR (section 4.4 step 2). -/
def VR.isLong : VR → Bool
  | .OB | .OD | .OF | .OL | .OW | .SQ | .UC | .UN | .UR | .UT => true
  | _ => false

/-- VR Catalog, padding rule: UI pads with a null byte, the other
string-backed VRs pad with a space (section 4.4 step 5). -/
def VR.padByte : VR → Byte
  | .UI => 0
  | _ => 32

/-- Modelled from the spec: the value-group parsing rule of the VR
Catalog (section 2 item 1); every VR prescribes one value kind. -/
inductive ValueKind where
  | strKind | u16Kind | u32Kind | i16Kind | i32Kind
  | tagKind | bytesKind | seqKind
deriving DecidableEq, Repr

/-- VR Catalog, value-kind rule: string-backed VRs parse as delimited
strings, US/UL/SS/SL as numeric arrays, AT as tags, SQ as a sequence,
and the remaining (other byte/word, float bit patterns, unknown) as raw
bytes (section 2 item 1 and section 3, Primitive Value). -/
def VR.kind : VR → ValueKind
  | .US => .u16Kind
  | .UL => .u32Kind
  | .SS => .i16Kind
  | .SL => .i32Kind
  | .AT => .tagKind
  | .SQ => .seqKind
  | .OB | .OD | .OF | .OL | .OW | .UN | .FL | .FD => .bytesKind
  | _ => .strKind

/-- Two-letter ASCII code of a VR as written on an explicit-VR wire
(section 4.4 step 2). -/
def VR.codeBytes : VR → Byte × Byte
  | .AE => (65, 69) | .AS => (65, 83) | .AT => (65, 84) | .CS => (67, 83)
  | .DA => (68, 65) | .DS => (68, 83) | .DT => (68, 84) | .FL => (70, 76)
  | .FD => (70, 68) | .IS => (73, 83) | .LO => (76, 79) | .LT => (76, 84)
  | .OB => (79, 66) | .OD => (79, 68) | .OF => (79, 70) | .OL => (79, 76)
  | .OW => (79, 87) | .PN => (80, 78) | .SH => (83, 72) | .SL => (83, 76)
  | .SQ => (83, 81) | .SS => (83, 83) | .ST => (83, 84) | .TM => (84, 77)
  | .UC => (85, 67) | .UI => (85, 73) | .UL => (85, 76) | .UN => (85, 78)
  | .UR => (85, 82) | .US => (85, 83) | .UT => (85, 84)

/-- Recognize a two-letter VR code read from an explicit-VR stream;
an unrecognized code yields none and the caller substitutes Unknown
(section 4.1 and section 4.4 error conditions). -/
def VR.ofCodeBytes (b0 b1 : Byte) : Option VR :=
  if (b0, b1) = (65, 69) then some .AE
  else if (b0, b1) = (65, 83) then some .AS
  else if (b0, b1) = (65, 84) then some .AT
  else if (b0, b1) = (67, 83) then some .CS
  else if (b0, b1) = (68, 65) then some .DA
  else if (b0, b1) = (68, 83) then some .DS
  else if (b0, b1) = (68, 84) then some .DT
  else if (b0, b1) = (70, 76) then some .FL
  else if (b0, b1) = (70, 68) then some .FD
  else if (b0, b1) = (73, 83) then some .IS
  else if (b0, b1) = (76, 79) then some .LO
  else if (b0, b1) = (76, 84) then some .LT
  else if (b0, b1) = (79, 66) then some .OB
  else if (b0, b1) = (79, 68) then some .OD
  else if (b0, b1) = (79, 70) then some .OF
  else if (b0, b1) = (79, 76) then some .OL
  else if (b0, b1) = (79, 87) then some .OW
  else if (b0, b1) = (80, 78) then some .PN
  else if (b0, b1) = (83, 72) then some .SH
  else if (b0, b1) = (83, 76) then some .SL
  else if (b0, b1) = (83, 81) then some .SQ
  else if (b0, b1) = (83, 83) then some .SS
  else if (b0, b1) = (83, 84) then some .ST
  else if (b0, b1) = (84, 77) then some .TM
  else if (b0, b1) = (85, 67) then some .UC
  else if (b0, b1) = (85, 73) then some .UI
  else if (b0, b1) = (85, 76) then some .UL
  else if (b0, b1) = (85, 78) then some .UN
  else if (b0, b1) = (85, 82) then some .UR
  else if (b0, b1) = (85, 83) then some .US
  else if (b0, b1) = (85, 84) then some .UT
  else none

/-- Modelled from the spec: the Primitive Value Model, a tagged union of
homogeneous typed value containers (section 3, Primitive Value).  String
components are kept as raw character bytes; float values travel as raw
bit-pattern bytes since the engine never interprets them. -/
inductive PrimitiveValue where
  | strs (xs : List (List Byte))
  | u16s (xs : List Nat)
  | u32s (xs : List Nat)
  | i16s (xs : List Int)
  | i32s (xs : List Int)
  | atags (xs : List Tag)
  | bytes (bs : List Byte)
deriving DecidableEq, Repr

/-- Kind of a primitive value, compared against the VR-prescribed kind. -/
def PrimitiveValue.kindOf : PrimitiveValue → ValueKind
  | .strs _ => .strKind
  | .u16s _ => .u16Kind
  | .u32s _ => .u32Kind
  | .i16s _ => .i16Kind
  | .i32s _ => .i32Kind
  | .atags _ => .tagKind
  | .bytes _ => .bytesKind

/-- Concatenation of the images of a list, used by the value and
fragment serializers. -/
def concatList (f : α → List β) : List α → List β
  | [] => []
  | x :: xs => f x ++ concatList f xs

/-- Join string components with the standard backslash delimiter
(byte 92, section 3 Primitive Value). -/
def joinComponents : List (List Byte) → List Byte
  | [] => []
  | [c] => c
  | c :: cs => c ++ 92 :: joinComponents cs

/-- Split a value byte string on the backslash delimiter (section 4.4
step 4); an empty value yields one empty component. -/
def splitComponents : List Byte → List (List Byte)
  | [] => [[]]
  | b :: rest =>
    if b == 92 then [] :: splitComponents rest
    else
      match splitComponents rest with
      | c :: cs => (b :: c) :: cs
      | [] => [[b]]

/-- Drop trailing pad bytes of one string component (section 4.4
step 5: read-back trim of the pad byte). -/
def trimTrailing (pad : Byte) (xs : List Byte) : List Byte :=
  (xs.reverse.dropWhile (· == pad)).reverse

/-- Encode a string-kind value: join the components and pad the result
with the pad byte of the VR when its length is odd (section 4.5). -/
def encodeStrs (pad : Byte) (xs : List (List Byte)) : List Byte :=
  let joined := joinComponents xs
  if joined.length % 2 == 1 then joined ++ [pad] else joined

/-- Decode a string-kind value: split on the delimiter and trim each
component of trailing pad bytes (sections 3 and 4.4). -/
def decodeStrs (pad : Byte) (bs : List Byte) : List (List Byte) :=
  (splitComponents bs).map (trimTrailing pad)

/-- Replace the last element of a nonempty list by the image of a
function; auxiliary description of odd-length padding. -/
def mapLast (f : List Byte → List Byte) : List (List Byte) → List (List Byte)
  | [] => []
  | [c] => [f c]
  | c :: cs => c :: mapLast f cs

/-- Decode a 16-bit unsigned numeric array from its value bytes; fails
on an odd byte count. -/
def decodeU16s (be : Bool) : List Byte → Option (List Nat)
  | [] => some []
  | b0 :: b1 :: rest => (decodeU16s be rest).map (natOfBytes16 be b0 b1 :: ·)
  | _ => none

/-- Decode a 32-bit unsigned numeric array from its value bytes. -/
def decodeU32s (be : Bool) : List Byte → Option (List Nat)
  | [] => some []
  | b0 :: b1 :: b2 :: b3 :: rest =>
    (decodeU32s be rest).map (natOfBytes32 be b0 b1 b2 b3 :: ·)
  | _ => none

/-- Two's-complement wire form of a signed 16-bit integer. -/
def bytesOfInt16 (be : Bool) (x : Int) : List Byte :=
  bytesOfNat16 be (x % 65536).toNat

/-- Read back a signed 16-bit integer from its two's-complement form. -/
def intOfBytes16 (be : Bool) (b0 b1 : Byte) : Int :=
  let n := natOfBytes16 be b0 b1
  if n < 32768 then (n : Int) else (n : Int) - 65536

/-- Decode a signed 16-bit numeric array from its value bytes. -/
def decodeI16s (be : Bool) : List Byte → Option (List Int)
  | [] => some []
  | b0 :: b1 :: rest => (decodeI16s be rest).map (intOfBytes16 be b0 b1 :: ·)
  | _ => none

/-- Two's-complement wire form of a signed 32-bit integer. -/
def bytesOfInt32 (be : Bool) (x : Int) : List Byte :=
  bytesOfNat32 be (x % 4294967296).toNat

/-- Read back a signed 32-bit integer from its two's-complement form. -/
def intOfBytes32 (be : Bool) (b0 b1 b2 b3 : Byte) : Int :=
  let n := natOfBytes32 be b0 b1 b2 b3
  if n < 2147483648 then (n : Int) else (n : Int) - 4294967296

/-- Decode a signed 32-bit numeric array from its value bytes. -/
def decodeI32s (be : Bool) : List Byte → Option (List Int)
  | [] => some []
  | b0 :: b1 :: b2 :: b3 :: rest =>
    (decodeI32s be rest).map (intOfBytes32 be b0 b1 b2 b3 :: ·)
  | _ => none

/-- Decode an attribute-tag (AT) array: each tag is four bytes. -/
def decodeATags (be : Bool) : List Byte → Option (List Tag)
  | [] => some []
  | g0 :: g1 :: e0 :: e1 :: rest =>
    (decodeATags be rest).map
      (Tag.mk (natOfBytes16 be g0 g1) (natOfBytes16 be e0 e1) :: ·)
  | _ => none

/-- Modelled from the spec: the typed error taxonomy of section 7.  All
decode/encode failure surfaces as one of these values; there is no
panicking path. -/
inductive DicomError where
  | unexpectedEof
  | invalidElementLength
  | invalidValueLength
  | unexpectedDelimiter
  | invalidItemHeader
  | unsupportedTransferSyntax (uid : List Byte)
  | missingRequiredMetaElement
  | vrMismatch (tag : Tag)
  | fuelExhausted
deriving DecidableEq, Repr

/-- Serialize a primitive value to its wire bytes according to the
value-kind rule of its VR (section 4.5). -/
def encodePrimValue (be : Bool) (vr : VR) : PrimitiveValue → List Byte
  | .strs xs => encodeStrs vr.padByte xs
  | .u16s xs => concatList (bytesOfNat16 be) xs
  | .u32s xs => concatList (bytesOfNat32 be) xs
  | .i16s xs => concatList (bytesOfInt16 be) xs
  | .i32s xs => concatList (bytesOfInt32 be) xs
  | .atags xs => concatList (encodeTag be) xs
  | .bytes bs => bs

/-- Parse value bytes into the VR-prescribed value kind (section 4.4
step 4, fixed/variable scalar VRs). -/
def decodePrimValue (be : Bool) (vr : VR) (bs : List Byte) :
    Except DicomError PrimitiveValue :=
  match vr.kind with
  | .strKind => .ok (.strs (decodeStrs vr.padByte bs))
  | .u16Kind =>
    match decodeU16s be bs with
    | some xs => .ok (.u16s xs)
    | none => .error .invalidValueLength
  | .u32Kind =>
    match decodeU32s be bs with
    | some xs => .ok (.u32s xs)
    | none => .error .invalidValueLength
  | .i16Kind =>
    match decodeI16s be bs with
    | some xs => .ok (.i16s xs)
    | none => .error .invalidValueLength
  | .i32Kind =>
    match decodeI32s be bs with
    | some xs => .ok (.i32s xs)
    | none => .error .invalidValueLength
  | .tagKind =>
    match decodeATags be bs with
    | some xs => .ok (.atags xs)
    | none => .error .invalidValueLength
  | .bytesKind => .ok (.bytes bs)
  | .seqKind => .error .invalidElementLength

/-- Value-level well-formedness of a primitive value held against a VR:
numeric entries fit their width, string components are free of the
delimiter and carry no trailing padding, raw byte values have even
length (section 3, Primitive Value invariant and section 6 even
padding). -/
def wfValue (vr : VR) : PrimitiveValue → Bool
  | .strs xs =>
    !xs.isEmpty &&
      xs.all (fun c => !c.contains 92 && trimTrailing vr.padByte c == c)
  | .u16s xs => xs.all (fun x => x < 65536)
  | .u32s xs => xs.all (fun x => x < 4294967296)
  | .i16s xs => xs.all (fun x => -32768 ≤ x && x < 32768)
  | .i32s xs => xs.all (fun x => -2147483648 ≤ x && x < 2147483648)
  | .atags xs => xs.all (fun x => x.group < 65536 && x.elem < 65536)
  | .bytes bs => bs.length % 2 == 0

/-- Character bytes of a string literal, used for UID constants. -/
def strBytes (s : String) : List Byte :=
  s.data.map Char.toNat

/-- Modelled from the spec: the Transfer Syntax Descriptor
{uid, explicit_vr, big_endian, deflated} of section 3, extended with the
compressed (encapsulated) classification that section 3 attaches to the
governing syntax of a PixelSequence. -/
structure TransferSyntax where
  uid : List Byte
  explicitVr : Bool
  bigEndian : Bool
  deflated : Bool
  compressed : Bool
deriving DecidableEq, Repr

/-- Built-in descriptor: Implicit VR Little Endian (section 2 item 3). -/
def implicitVrLittleEndian : TransferSyntax :=
  ⟨strBytes "1.2.840.10008.1.2", false, false, false, false⟩

/-- Built-in descriptor: Explicit VR Little Endian (section 2 item 3). -/
def explicitVrLittleEndian : TransferSyntax :=
  ⟨strBytes "1.2.840.10008.1.2.1", true, false, false, false⟩

/-- Modelled from the spec: the Transfer Syntax Registry, a read-only
table of descriptors keyed by UID, populated with the two standard
built-ins (sections 2 and 4.3). -/
def builtinRegistry : List TransferSyntax :=
  [implicitVrLittleEndian, explicitVrLittleEndian]

/-- Registry resolution: an unknown UID fails with
UnsupportedTransferSyntax (section 4.3). -/
def resolveTransferSyntax (reg : List TransferSyntax) (uid : List Byte) :
    Except DicomError TransferSyntax :=
  match reg.find? (fun ts => ts.uid == uid) with
  | some ts => .ok ts
  | none => .error (.unsupportedTransferSyntax uid)

/-- Modelled from the spec: a Data Dictionary entry carrying the
human-readable name and the VR a tag normally holds (section 4.2). -/
structure DictEntry where
  name : List Byte
  vr : VR
deriving DecidableEq, Repr

/-- Modelled from the spec: the Data Dictionary, keyed by tag and an
optional private-creator string (section 4.2). -/
abbrev DataDictionary := List ((Tag × Option (List Byte)) × DictEntry)

/-- Dictionary lookup with optional private-creator qualification
(section 4.2). -/
def lookupDict (d : DataDictionary) (t : Tag) (pc : Option (List Byte)) :
    Option DictEntry :=
  (d.find? (fun p => p.1 == (t, pc))).map (fun p => p.2)

/-- Synthetic name produced for tags the dictionary does not know
(section 4.2: lookup miss is not an error). -/
def syntheticName (t : Tag) : List Byte :=
  strBytes "UnknownTag" ++
    [t.group / 256 % 256, t.group % 256, t.elem / 256 % 256, t.elem % 256]

/-- Dictionary-assisted resolution: a hit returns the dictionary VR and
name, a miss falls back to the Unknown VR with a synthetic name
(sections 4.2 and 7, dictionary-miss errors). -/
def resolveImplicit (d : DataDictionary) (t : Tag)
    (pc : Option (List Byte)) : VR × List Byte :=
  match lookupDict d t pc with
  | some e => (e.vr, e.name)
  | none => (VR.UN, syntheticName t)

/-- Modelled from the spec: the private-creator context scoped to one
decode-in-progress data set, passed alongside the cursor (section 9);
it maps (group, block) to the registered creator string. -/
abbrev PrivateCreatorCtx := List ((Nat × Nat) × List Byte)

/-- Creator string governing a tag, looked up by its group and the
block its element falls in (section 3, private tags). -/
def creatorFor (ctx : PrivateCreatorCtx) (t : Tag) : Option (List Byte) :=
  (ctx.find? (fun p => p.1 == (t.group, t.elem / 256))).map (fun p => p.2)

/-- Decoder configuration: the resolved Transfer Syntax Descriptor, the
data dictionary and the private-creator context of the data set being
decoded (section 2 control flow). -/
structure DecodeCfg where
  ts : TransferSyntax
  dict : DataDictionary
  ctx : PrivateCreatorCtx

/-- VR assigned to a tag on an implicit-VR stream (section 4.4 step 2:
dictionary consultation with Unknown fallback). -/
def implicitVrOf (cfg : DecodeCfg) (t : Tag) : VR :=
  (resolveImplicit cfg.dict t (creatorFor cfg.ctx t)).1

/-- Modelled from the spec: the Data Element Model (section 3).  An
element is a primitive-valued leaf, an empty placeholder, a Sequence of
Items (each item an element list, recursively), or a PixelSequence of
an offset table and opaque fragments. -/
inductive DataElement where
  | prim (tag : Tag) (vr : VR) (v : PrimitiveValue)
  | emptyElem (tag : Tag) (vr : VR)
  | seqElem (tag : Tag) (items : List (List DataElement))
  | pixelSeq (tag : Tag) (offsetTable : List Byte)
      (fragments : List (List Byte))

/-- Tag of a data element. -/
def DataElement.tagOf : DataElement → Tag
  | .prim t _ _ => t
  | .emptyElem t _ => t
  | .seqElem t _ => t
  | .pixelSeq t _ _ => t

/-- Element header wire layout (section 6): tag, then under explicit VR
the two-letter code with a 2-byte length (or two reserved bytes and a
4-byte length for the long VRs), and under implicit VR a 4-byte length
with no code. -/
def encodeHeader (ts : TransferSyntax) (t : Tag) (vr : VR) (len : Nat) :
    List Byte :=
  let tagB := encodeTag ts.bigEndian t
  if ts.explicitVr then
    if vr.isLong then
      tagB ++ [vr.codeBytes.1, vr.codeBytes.2, 0, 0] ++
        bytesOfNat32 ts.bigEndian len
    else
      tagB ++ [vr.codeBytes.1, vr.codeBytes.2] ++
        bytesOfNat16 ts.bigEndian len
  else
    tagB ++ bytesOfNat32 ts.bigEndian len

/-- Item, item-delimiter and sequence-delimiter headers: a fixed tag
followed by a 4-byte length, in every transfer syntax (section 6). -/
def encodeItemHeader (be : Bool) (t : Tag) (len : Nat) : List Byte :=
  encodeTag be t ++ bytesOfNat32 be len

mutual

/-- Modelled from the spec: the Stream Encoder per element
(section 4.5).  Sequences are emitted with a concrete measured length;
a PixelSequence is emitted with the undefined-length sentinel, the
offset table as first item, one item per fragment and a closing
sequence delimiter (section 4.4 step 4, mirrored). -/
def encodeElement (ts : TransferSyntax) : DataElement → List Byte
  | .prim t vr v =>
    let vb := encodePrimValue ts.bigEndian vr v
    encodeHeader ts t vr vb.length ++ vb
  | .emptyElem t vr => encodeHeader ts t vr 0
  | .seqElem t items =>
    let body := encodeItemList ts items
    encodeHeader ts t .SQ body.length ++ body
  | .pixelSeq t offs frags =>
    encodeHeader ts t .OB UNDEFINED_LEN ++
      (encodeItemHeader ts.bigEndian itemTag offs.length ++ offs) ++
      concatList
        (fun f => encodeItemHeader ts.bigEndian itemTag f.length ++ f)
        frags ++
      encodeItemHeader ts.bigEndian seqDelimTag 0

/-- Serialize a list of data elements back to bytes (section 4.5). -/
def encodeElemList (ts : TransferSyntax) : List DataElement → List Byte
  | [] => []
  | e :: es => encodeElement ts e ++ encodeElemList ts es

/-- Serialize sequence items, each as an item header carrying the
measured body length followed by the body (section 6). -/
def encodeItemList (ts : TransferSyntax) : List (List DataElement) → List Byte
  | [] => []
  | it :: its =>
    let body := encodeElemList ts it
    encodeItemHeader ts.bigEndian itemTag body.length ++ body ++
      encodeItemList ts its

end

/-- Largest value the length field of an element can carry without
colliding with the undefined-length sentinel: 2-byte fields under
explicit VR for the short VRs, 4-byte fields otherwise (section 4.4
step 2). -/
def lenLimit (ts : TransferSyntax) (vr : VR) : Nat :=
  if ts.explicitVr && !vr.isLong then 65536 else UNDEFINED_LEN

/-- Structural well-formedness of a tag: 16-bit components and not one
of the reserved delimiter tags (sections 3 and 6). -/
def wfTag (t : Tag) : Bool :=
  t.group < 65536 && t.elem < 65536 && !t.isDelimiter

mutual

/-- Well-formedness of an in-memory data element with respect to a
decoder configuration: the data-model invariants of section 3 (value
kind matches the VR-prescribed kind, numeric bounds, canonical string
components, even raw values), the length-field bounds of section 4.4,
and dictionary agreement for implicit-VR syntaxes (section 2 control
flow: an implicit stream carries no VR, so re-decoding resolves it via
the dictionary). -/
def wfElement (cfg : DecodeCfg) : DataElement → Bool
  | .prim t vr v =>
    let vb := encodePrimValue cfg.ts.bigEndian vr v
    wfTag t && (v.kindOf == vr.kind) && wfValue vr v &&
      (cfg.ts.explicitVr || implicitVrOf cfg t == vr) &&
      decide (0 < vb.length) && decide (vb.length < lenLimit cfg.ts vr)
  | .emptyElem t vr =>
    wfTag t && !(vr == VR.SQ) &&
      (cfg.ts.explicitVr || implicitVrOf cfg t == vr)
  | .seqElem t items =>
    wfTag t && (cfg.ts.explicitVr || implicitVrOf cfg t == VR.SQ) &&
      decide ((encodeItemList cfg.ts items).length < UNDEFINED_LEN) &&
      wfItemList cfg items
  | .pixelSeq t offs frags =>
    (t == pixelDataTag) && cfg.ts.compressed &&
      (cfg.ts.explicitVr || !(implicitVrOf cfg t == VR.SQ)) &&
      (offs.length % 2 == 0) && decide (offs.length < UNDEFINED_LEN) &&
      frags.all
        (fun f => (f.length % 2 == 0) && decide (f.length < UNDEFINED_LEN))

/-- Well-formedness of a list of data elements. -/
def wfElemList (cfg : DecodeCfg) : List DataElement → Bool
  | [] => true
  | e :: es => wfElement cfg e && wfElemList cfg es

/-- Well-formedness of sequence items: each item body must also fit its
4-byte item length field (section 6). -/
def wfItemList (cfg : DecodeCfg) : List (List DataElement) → Bool
  | [] => true
  | it :: its =>
    decide ((encodeElemList cfg.ts it).length < UNDEFINED_LEN) &&
      wfElemList cfg it && wfItemList cfg its

end

mutual

/-- Fuel bound for decoding one element: one unit per recursive call
the stream decoder makes on its behalf. -/
def sizeElement : DataElement → Nat
  | .prim _ _ _ => 1
  | .emptyElem _ _ => 1
  | .seqElem _ items => 1 + sizeItemList items
  | .pixelSeq _ _ frags => 1 + (frags.length + 2)

/-- Fuel bound for decoding a list of elements. -/
def sizeElemList : List DataElement → Nat
  | [] => 1
  | e :: es => 1 + sizeElement e + sizeElemList es

/-- Fuel bound for decoding a list of sequence items. -/
def sizeItemList : List (List DataElement) → Nat
  | [] => 1
  | it :: its => 1 + sizeElemList it + sizeItemList its

end

mutual

/-- First tag, in document order, whose primitive value kind does not
match its declared VR; none when every element is consistent
(section 4.5, VrMismatch). -/
def firstMismatchElem : DataElement → Option Tag
  | .prim t vr v => if v.kindOf == vr.kind then none else some t
  | .emptyElem _ _ => none
  | .seqElem _ items => firstMismatchItems items
  | .pixelSeq _ _ _ => none

/-- First kind/VR mismatch in a list of elements. -/
def firstMismatchList : List DataElement → Option Tag
  | [] => none
  | e :: es =>
    match firstMismatchElem e with
    | some t => some t
    | none => firstMismatchList es

/-- First kind/VR mismatch inside a list of sequence items. -/
def firstMismatchItems : List (List DataElement) → Option Tag
  | [] => none
  | it :: its =>
    match firstMismatchList it with
    | some t => some t
    | none => firstMismatchItems its

end

/-- Every element of the list, recursively, holds a value whose kind
matches its declared VR. -/
def kindsOkElems (es : List DataElement) : Bool :=
  (firstMismatchList es).isNone

/-- Modelled from the spec: the checked Stream Encoder entry point
(section 4.5): encoding fails only when a Primitive Value kind does not
match its declared VR, reported as VrMismatch with the offending tag;
otherwise it emits the serialized bytes. -/
def encodeElements (ts : TransferSyntax) (es : List DataElement) :
    Except DicomError (List Byte) :=
  match firstMismatchList es with
  | some t => .error (.vrMismatch t)
  | none => .ok (encodeElemList ts es)

/-- Read a 4-byte tag from the cursor (section 4.4 step 1). -/
def readTag (be : Bool) : List Byte → Except DicomError (Tag × List Byte)
  | g0 :: g1 :: e0 :: e1 :: rest =>
    .ok (⟨natOfBytes16 be g0 g1, natOfBytes16 be e0 e1⟩, rest)
  | _ => .error .unexpectedEof

/-- Read the VR and length field after a tag (section 4.4 step 2).
Explicit VR reads the two-letter code and a 2- or 4-byte length; an
unrecognized code is substituted by Unknown with its 4-byte length
field (section 4.1).  Implicit VR reads a 4-byte length and resolves
the VR through the dictionary. -/
def readVrLen (cfg : DecodeCfg) (t : Tag) (bytes : List Byte) :
    Except DicomError (VR × Nat × List Byte) :=
  if cfg.ts.explicitVr then
    match bytes with
    | c0 :: c1 :: rest =>
      match VR.ofCodeBytes c0 c1 with
      | some vr =>
        if vr.isLong then
          match rest with
          | _ :: _ :: l0 :: l1 :: l2 :: l3 :: rest2 =>
            .ok (vr, natOfBytes32 cfg.ts.bigEndian l0 l1 l2 l3, rest2)
          | _ => .error .unexpectedEof
        else
          match rest with
          | l0 :: l1 :: rest2 =>
            .ok (vr, natOfBytes16 cfg.ts.bigEndian l0 l1, rest2)
          | _ => .error .unexpectedEof
      | none =>
        match rest with
        | _ :: _ :: l0 :: l1 :: l2 :: l3 :: rest2 =>
          .ok (VR.UN, natOfBytes32 cfg.ts.bigEndian l0 l1 l2 l3, rest2)
        | _ => .error .unexpectedEof
    | _ => .error .unexpectedEof
  else
    match bytes with
    | l0 :: l1 :: l2 :: l3 :: rest =>
      .ok (implicitVrOf cfg t, natOfBytes32 cfg.ts.bigEndian l0 l1 l2 l3, rest)
    | _ => .error .unexpectedEof

/-- Read a full element header; a delimiter tag in element position is
a malformed stream (section 4.4 steps 1 and 2). -/
def readHeader (cfg : DecodeCfg) (bytes : List Byte) :
    Except DicomError (Tag × VR × Nat × List Byte) :=
  match readTag cfg.ts.bigEndian bytes with
  | .error e => .error e
  | .ok (t, rest) =>
    if t.isDelimiter then .error .unexpectedDelimiter
    else
      match readVrLen cfg t rest with
      | .error e => .error e
      | .ok (vr, len, rest2) => .ok (t, vr, len, rest2)

/-- Read an item or delimiter header: tag plus 4-byte length
(section 6). -/
def readItemHeader (be : Bool) :
    List Byte → Except DicomError (Tag × Nat × List Byte)
  | g0 :: g1 :: e0 :: e1 :: l0 :: l1 :: l2 :: l3 :: rest =>
    .ok (⟨natOfBytes16 be g0 g1, natOfBytes16 be e0 e1⟩,
      natOfBytes32 be l0 l1 l2 l3, rest)
  | _ => .error .unexpectedEof

/-- Decode the length-prefixed fragments of encapsulated pixel data up
to the sequence delimiter (section 4.4 step 4, Pixel Data with
undefined length). -/
def decodeFragments (be : Bool) :
    Nat → List Byte → Except DicomError (List (List Byte) × List Byte)
  | 0, _ => .error .fuelExhausted
  | fuel + 1, bytes =>
    match readItemHeader be bytes with
    | .error e => .error e
    | .ok (t, len, rest) =>
      if t = seqDelimTag then
        if len = 0 then .ok ([], rest) else .error .invalidItemHeader
      else if t = itemTag then
        if len = UNDEFINED_LEN then .error .invalidElementLength
        else if len ≤ rest.length then
          match decodeFragments be fuel (rest.drop len) with
          | .error e => .error e
          | .ok (frags, rest2) => .ok (rest.take len :: frags, rest2)
        else .error .unexpectedEof
      else .error .invalidItemHeader

/-- Width limit imposed by the length field the header uses for this
VR, ignoring the sentinel. -/
def headerLimit (ts : TransferSyntax) (vr : VR) : Nat :=
  if ts.explicitVr && !vr.isLong then 65536 else 4294967296

mutual

/-- Modelled from the spec: the Stream Decoder loop over a byte cursor
(section 4.4), consuming elements until the cursor is exhausted. -/
def decodeElems (cfg : DecodeCfg) :
    Nat → List Byte → Except DicomError (List DataElement)
  | 0, _ => .error .fuelExhausted
  | _ + 1, [] => .ok []
  | fuel + 1, b :: bs =>
    match decodeElem cfg fuel (b :: bs) with
    | .error e => .error e
    | .ok (e, rest) =>
      match decodeElems cfg fuel rest with
      | .error e2 => .error e2
      | .ok es => .ok (e :: es)

/-- Decode one data element (section 4.4 steps 1 to 5): read the
header, validate the undefined-length sentinel (step 3: legal only for
Sequence VR and for Pixel Data under a compressed transfer syntax),
then dispatch on the VR. -/
def decodeElem (cfg : DecodeCfg) :
    Nat → List Byte → Except DicomError (DataElement × List Byte)
  | 0, _ => .error .fuelExhausted
  | fuel + 1, bytes =>
    match readHeader cfg bytes with
    | .error e => .error e
    | .ok (t, vr, len, rest) =>
      if len = UNDEFINED_LEN then
        if vr = VR.SQ then
          match decodeItemsUndef cfg fuel rest with
          | .error e => .error e
          | .ok (items, rest2) => .ok (.seqElem t items, rest2)
        else if t = pixelDataTag then
          if cfg.ts.compressed then
            match decodeFragments cfg.ts.bigEndian fuel rest with
            | .error e => .error e
            | .ok ([], rest2) => .ok (.pixelSeq t [] [], rest2)
            | .ok (offs :: frags, rest2) => .ok (.pixelSeq t offs frags, rest2)
          else .error .invalidElementLength
        else .error .invalidElementLength
      else if vr = VR.SQ then
        if len ≤ rest.length then
          match decodeItemsAll cfg fuel (rest.take len) with
          | .error e => .error e
          | .ok items => .ok (.seqElem t items, rest.drop len)
        else .error .unexpectedEof
      else if len = 0 then .ok (.emptyElem t vr, rest)
      else if len ≤ rest.length then
        match decodePrimValue cfg.ts.bigEndian vr (rest.take len) with
        | .error e => .error e
        | .ok v => .ok (.prim t vr v, rest.drop len)
      else .error .unexpectedEof

/-- Decode the items of a defined-length sequence: the body is consumed
to exhaustion, one item header plus body at a time (section 4.4
step 4). -/
def decodeItemsAll (cfg : DecodeCfg) :
    Nat → List Byte → Except DicomError (List (List DataElement))
  | 0, _ => .error .fuelExhausted
  | _ + 1, [] => .ok []
  | fuel + 1, b :: bs =>
    match readItemHeader cfg.ts.bigEndian (b :: bs) with
    | .error e => .error e
    | .ok (t, len, rest) =>
      if t = itemTag then
        if len = UNDEFINED_LEN then
          match decodeElemsUntilItemDelim cfg fuel rest with
          | .error e => .error e
          | .ok (els, rest2) =>
            match decodeItemsAll cfg fuel rest2 with
            | .error e => .error e
            | .ok items => .ok (els :: items)
        else if len ≤ rest.length then
          match decodeElems cfg fuel (rest.take len) with
          | .error e => .error e
          | .ok els =>
            match decodeItemsAll cfg fuel (rest.drop len) with
            | .error e => .error e
            | .ok items => .ok (els :: items)
        else .error .unexpectedEof
      else .error .invalidItemHeader

/-- Decode the items of an undefined-length sequence, scanning until
the sequence delimiter (section 4.4 step 4 and section 9, the
delimiter-scanning mode). -/
def decodeItemsUndef (cfg : DecodeCfg) :
    Nat → List Byte →
      Except DicomError (List (List DataElement) × List Byte)
  | 0, _ => .error .fuelExhausted
  | fuel + 1, bytes =>
    match readItemHeader cfg.ts.bigEndian bytes with
    | .error e => .error e
    | .ok (t, len, rest) =>
      if t = seqDelimTag then
        if len = 0 then .ok ([], rest) else .error .invalidItemHeader
      else if t = itemTag then
        if len = UNDEFINED_LEN then
          match decodeElemsUntilItemDelim cfg fuel rest with
          | .error e => .error e
          | .ok (els, rest2) =>
            match decodeItemsUndef cfg fuel rest2 with
            | .error e => .error e
            | .ok (items, rest3) => .ok (els :: items, rest3)
        else if len ≤ rest.length then
          match decodeElems cfg fuel (rest.take len) with
          | .error e => .error e
          | .ok els =>
            match decodeItemsUndef cfg fuel (rest.drop len) with
            | .error e => .error e
            | .ok (items, rest3) => .ok (els :: items, rest3)
        else .error .unexpectedEof
      else .error .invalidItemHeader

/-- Decode the elements of an undefined-length item, scanning until the
item delimiter (section 4.4 step 4). -/
def decodeElemsUntilItemDelim (cfg : DecodeCfg) :
    Nat → List Byte → Except DicomError (List DataElement × List Byte)
  | 0, _ => .error .fuelExhausted
  | fuel + 1, bytes =>
    match readTag cfg.ts.bigEndian bytes with
    | .error e => .error e
    | .ok (t, rest4) =>
      if t = itemDelimTag then
        match rest4 with
        | l0 :: l1 :: l2 :: l3 :: rest2 =>
          if natOfBytes32 cfg.ts.bigEndian l0 l1 l2 l3 = 0 then
            .ok ([], rest2)
          else .error .invalidItemHeader
        | _ => .error .unexpectedEof
      else
        match decodeElem cfg fuel bytes with
        | .error e => .error e
        | .ok (e, rest2) =>
          match decodeElemsUntilItemDelim cfg fuel rest2 with
          | .error e => .error e
          | .ok (els, rest3) => .ok (e :: els, rest3)

end

/-- Round-trip property of one element: decoding its encoding, with any
trailing bytes, restores the element and leaves the trailing bytes. -/
def RtElem (e : DataElement) : Prop :=
  ∀ (cfg : DecodeCfg) (fuel : Nat) (rest : List Byte),
    wfElement cfg e = true → sizeElement e ≤ fuel →
    decodeElem cfg fuel (encodeElement cfg.ts e ++ rest) = .ok (e, rest)

/-- Round-trip property of an element list consumed to exhaustion. -/
def RtElems (es : List DataElement) : Prop :=
  ∀ (cfg : DecodeCfg) (fuel : Nat),
    wfElemList cfg es = true → sizeElemList es ≤ fuel →
    decodeElems cfg fuel (encodeElemList cfg.ts es) = .ok es

/-- Round-trip property of a sequence item list consumed to
exhaustion. -/
def RtItems (its : List (List DataElement)) : Prop :=
  ∀ (cfg : DecodeCfg) (fuel : Nat),
    wfItemList cfg its = true → sizeItemList its ≤ fuel →
    decodeItemsAll cfg fuel (encodeItemList cfg.ts its) = .ok its

mutual

/-- Induction principle over data elements for three mutual motives. -/
def elemRecAux (P : DataElement → Prop) (Q : List DataElement → Prop)
    (R : List (List DataElement) → Prop)
    (hprim : ∀ t vr v, P (.prim t vr v))
    (hempty : ∀ t vr, P (.emptyElem t vr))
    (hseq : ∀ t items, R items → P (.seqElem t items))
    (hpixel : ∀ t offs frags, P (.pixelSeq t offs frags))
    (hnil : Q [])
    (hcons : ∀ e es, P e → Q es → Q (e :: es))
    (hinil : R [])
    (hicons : ∀ it its, Q it → R its → R (it :: its)) :
    ∀ e, P e
  | .prim t vr v => hprim t vr v
  | .emptyElem t vr => hempty t vr
  | .seqElem t items =>
    hseq t items
      (itemsRecAux P Q R hprim hempty hseq hpixel hnil hcons hinil hicons
        items)
  | .pixelSeq t offs frags => hpixel t offs frags

/-- Induction principle over element lists for three mutual motives. -/
def elemsRecAux (P : DataElement → Prop) (Q : List DataElement → Prop)
    (R : List (List DataElement) → Prop)
    (hprim : ∀ t vr v, P (.prim t vr v))
    (hempty : ∀ t vr, P (.emptyElem t vr))
    (hseq : ∀ t items, R items → P (.seqElem t items))
    (hpixel : ∀ t offs frags, P (.pixelSeq t offs frags))
    (hnil : Q [])
    (hcons : ∀ e es, P e → Q es → Q (e :: es))
    (hinil : R [])
    (hicons : ∀ it its, Q it → R its → R (it :: its)) :
    ∀ es, Q es
  | [] => hnil
  | e :: es =>
    hcons e es
      (elemRecAux P Q R hprim hempty hseq hpixel hnil hcons hinil hicons e)
      (elemsRecAux P Q R hprim hempty hseq hpixel hnil hcons hinil hicons es)

/-- Induction principle over item lists for three mutual motives. -/
def itemsRecAux (P : DataElement → Prop) (Q : List DataElement → Prop)
    (R : List (List DataElement) → Prop)
    (hprim : ∀ t vr v, P (.prim t vr v))
    (hempty : ∀ t vr, P (.emptyElem t vr))
    (hseq : ∀ t items, R items → P (.seqElem t items))
    (hpixel : ∀ t offs frags, P (.pixelSeq t offs frags))
    (hnil : Q [])
    (hcons : ∀ e es, P e → Q es → Q (e :: es))
    (hinil : R [])
    (hicons : ∀ it its, Q it → R its → R (it :: its)) :
    ∀ its, R its
  | [] => hinil
  | it :: its =>
    hicons it its
      (elemsRecAux P Q R hprim hempty hseq hpixel hnil hcons hinil hicons it)
      (itemsRecAux P Q R hprim hempty hseq hpixel hnil hcons hinil hicons
        its)

end

/-- Sample descriptor: Explicit VR Little Endian extended with the
compressed flag, standing for a registered encapsulated syntax. -/
def sampleCompressedTs : TransferSyntax :=
  ⟨strBytes "1.2.840.10008.1.2.4.70", true, false, false, true⟩

/-- Sample decoder configuration over the compressed sample syntax. -/
def sampleCfg : DecodeCfg := ⟨sampleCompressedTs, [], []⟩

/-- Sample data set: a string element, a numeric element, a nested
sequence with three items (one empty), an encapsulated pixel sequence
with two fragments, and an empty placeholder element. -/
def sampleElems : List DataElement :=
  [ .prim ⟨8, 96⟩ .CS (.strs [strBytes "CT"])
  , .seqElem ⟨8, 4416⟩
      [ [.prim ⟨8, 96⟩ .CS (.strs [strBytes "MR"])]
      , [.prim ⟨40, 17⟩ .US (.u16s [7, 9])]
      , [] ]
  , .emptyElem ⟨16, 16⟩ .PN
  , .prim ⟨40, 16⟩ .US (.u16s [512])
  , .pixelSeq pixelDataTag [0, 0, 0, 0] [[1, 2], [3, 4, 5, 6]] ]

/-- Modelled from the spec: tag-addressed lookup in the In-Memory
Object Model (section 4.6, get). -/
def objGet (obj : List DataElement) (t : Tag) : Option DataElement :=
  obj.find? (fun e => e.tagOf == t)

/-- Modelled from the spec: put on the In-Memory Object Model
(section 4.6): insert or replace, maintaining tag order; on an existing
tag the incoming element replaces the old one (last write wins,
section 3 Data Element invariant). -/
def put (obj : List DataElement) (e : DataElement) : List DataElement :=
  match obj with
  | [] => [e]
  | x :: xs =>
    if e.tagOf = x.tagOf then e :: xs
    else if Tag.lt e.tagOf x.tagOf then e :: x :: xs
    else x :: put xs e

/-- Strictly increasing tag order over an element list (section 3,
Data Element invariant). -/
def sortedByTag : List DataElement → Bool
  | [] => true
  | [_] => true
  | x :: y :: rest => Tag.lt x.tagOf y.tagOf && sortedByTag (y :: rest)

/-- Populate an In-Memory Object from a stream of decoded elements by
repeated insertion (section 2 control flow: decoded Data Elements
populate the Object Model). -/
def buildObject (es : List DataElement) : List DataElement :=
  es.foldl put []

/-- Group number of the next element on a little-endian cursor, used to
stop the meta-group scan. -/
def peekGroup (bytes : List Byte) : Option Nat :=
  match bytes with
  | b0 :: b1 :: _ => some (natOfBytes16 false b0 b1)
  | _ => none

/-- Fixed configuration for the File Meta group: always Explicit VR
Little Endian regardless of the main data set (section 3, File Meta
Table). -/
def metaCfg : DecodeCfg := ⟨explicitVrLittleEndian, [], []⟩

/-- Modelled from the spec: decode the group 0002 File Meta elements
(section 2 item 9), consuming elements while the upcoming tag belongs
to group 2 and returning the rest of the cursor. -/
def decodeMetaGroup :
    Nat → List Byte → Except DicomError (List DataElement × List Byte)
  | 0, _ => .error .fuelExhausted
  | _ + 1, [] => .ok ([], [])
  | fuel + 1, b :: bs =>
    if peekGroup (b :: bs) = some 2 then
      match decodeElem metaCfg (fuel + 1) (b :: bs) with
      | .error e => .error e
      | .ok (e, rest) =>
        match decodeMetaGroup fuel rest with
        | .error e2 => .error e2
        | .ok (es, rest2) => .ok (e :: es, rest2)
    else .ok ([], b :: bs)

/-- Tag of the Transfer Syntax UID meta element (0002,0010). -/
def transferSyntaxUidTag : Tag := ⟨2, 16⟩

/-- Tag of the Media Storage SOP Class UID meta element (0002,0002). -/
def sopClassUidTag : Tag := ⟨2, 2⟩

/-- Tag of the Media Storage SOP Instance UID meta element
(0002,0003). -/
def sopInstanceUidTag : Tag := ⟨2, 3⟩

/-- Tag of the Implementation Class UID meta element (0002,0012). -/
def implementationClassUidTag : Tag := ⟨2, 18⟩

/-- Single-valued UID string carried by the element at a tag, when
present. -/
def uidValueOf (es : List DataElement) (t : Tag) : Option (List Byte) :=
  match es.find? (fun e => e.tagOf == t) with
  | some (.prim _ _ (.strs [c])) => some c
  | _ => none

/-- Modelled from the spec: the File Meta Table in its Unparsed state
(section 4.7): the group 0002 fields as read, nothing validated yet. -/
structure FileMetaTable where
  transferSyntaxUid : Option (List Byte)
  mediaStorageSopClassUid : Option (List Byte)
  mediaStorageSopInstanceUid : Option (List Byte)
  implementationClassUid : Option (List Byte)
deriving DecidableEq, Repr

/-- Extract the File Meta Table from the decoded group 0002
elements. -/
def buildMetaTable (es : List DataElement) : FileMetaTable :=
  ⟨uidValueOf es transferSyntaxUidTag,
    uidValueOf es sopClassUidTag,
    uidValueOf es sopInstanceUidTag,
    uidValueOf es implementationClassUidTag⟩

/-- Modelled from the spec: the Resolved state of the File Meta Table
state machine (section 4.7): the required UIDs validated present. -/
structure ResolvedMeta where
  transferSyntaxUid : List Byte
  mediaStorageSopClassUid : List Byte
  mediaStorageSopInstanceUid : List Byte
deriving DecidableEq, Repr

/-- Modelled from the spec: the Unparsed to Resolved transition of the
File Meta Table (section 4.7), failing with MissingRequiredMetaElement
when the Transfer Syntax UID, SOP Class UID or SOP Instance UID is
absent. -/
def resolveMetaTable (m : FileMetaTable) :
    Except DicomError ResolvedMeta :=
  match m.transferSyntaxUid, m.mediaStorageSopClassUid,
      m.mediaStorageSopInstanceUid with
  | some a, some b, some c => .ok ⟨a, b, c⟩
  | _, _, _ => .error .missingRequiredMetaElement

/-- Outcome of a full-stream decode: success carries the meta table,
its resolved form and the main data set; a failure after the meta group
was read keeps the meta fields accessible (section 4.3). -/
inductive FileOutcome where
  | success (meta : FileMetaTable) (resolved : ResolvedMeta)
      (ds : List DataElement)
  | metaFailure (e : DicomError)
  | recoverableFailure (meta : FileMetaTable) (e : DicomError)

/-- Modelled from the spec: the full-stream decode control flow
(section 2): File Meta Table first, then Transfer Syntax resolution,
then the main data set under the resolved descriptor. -/
def openFile (reg : List TransferSyntax) (dict : DataDictionary)
    (fuel : Nat) (bytes : List Byte) : FileOutcome :=
  match decodeMetaGroup fuel bytes with
  | .error e => .metaFailure e
  | .ok (metaEs, rest) =>
    let meta := buildMetaTable metaEs
    match resolveMetaTable meta with
    | .error e => .recoverableFailure meta e
    | .ok r =>
      match resolveTransferSyntax reg r.transferSyntaxUid with
      | .error e => .recoverableFailure meta e
      | .ok ts =>
        match decodeElems ⟨ts, dict, []⟩ fuel rest with
        | .error e => .recoverableFailure meta e
        | .ok ds => .success meta r ds

/-- Sample File Meta group: SOP Class UID, SOP Instance UID and a
Transfer Syntax UID that no registry entry carries. -/
def sampleMetaElems : List DataElement :=
  [ .prim sopClassUidTag .UI
      (.strs [strBytes "1.2.840.10008.5.1.4.1.1.7"])
  , .prim sopInstanceUidTag .UI (.strs [strBytes "1.2.3.4"])
  , .prim transferSyntaxUidTag .UI (.strs [strBytes "1.2.999"]) ]

/-- Wire bytes of the sample File Meta group, Explicit VR Little
Endian. -/
def sampleMetaBytes : List Byte :=
  encodeElemList explicitVrLittleEndian sampleMetaElems

/-- Resolved form of the sample File Meta group. -/
def sampleResolvedMeta : ResolvedMeta :=
  ⟨strBytes "1.2.999", strBytes "1.2.840.10008.5.1.4.1.1.7",
    strBytes "1.2.3.4"⟩

/-- Outcome of processing one input file in the dump tool: opening the
file can fail, dumping it can fail (with or without a broken pipe), or
everything succeeds (src/dump/src/main.rs, run). -/
inductive FileResult where
  | readError
  | dumpError (brokenPipe : Bool)
  | dumped
deriving DecidableEq, Repr

/-- Exit code used when reading a DICOM file failed
(src/dump/src/main.rs, ERROR_READ). -/
def ERROR_READ : Int := -2

/-- Exit code used when dumping a file failed
(src/dump/src/main.rs, ERROR_PRINT). -/
def ERROR_PRINT : Int := -3

/-- Loop body of run in src/dump/src/main.rs lines 87 to 110: walk the
files, report read errors and exit early under fail-first, treat a
broken pipe while dumping as a no-op message-wise, count every failed
file, and finally exit with the error count.  Returns the process exit
code and the number of error messages printed. -/
def runDumpLoop (failFirst : Bool) :
    List FileResult → Nat → Int × Nat
  | [], errors => ((errors : Int), 0)
  | r :: rest, errors =>
    match r with
    | .readError =>
      if failFirst then (ERROR_READ, 1)
      else
        let p := runDumpLoop failFirst rest (errors + 1)
        (p.1, p.2 + 1)
    | .dumpError true => runDumpLoop failFirst rest (errors + 1)
    | .dumpError false =>
      if failFirst then (ERROR_PRINT, 1)
      else
        let p := runDumpLoop failFirst rest (errors + 1)
        (p.1, p.2 + 1)
    | .dumped => runDumpLoop failFirst rest errors

/-- The run function of src/dump/src/main.rs: fail-first is forced on
when exactly one file was given (line 87), then the files are walked in
order. -/
def runDump (failFirstFlag : Bool) (files : List FileResult) : Int × Nat :=
  runDumpLoop (files.length == 1 || failFirstFlag) files 0

/-- Number of files whose processing failed (read errors and dump
errors, broken pipe included). -/
def countFailed (files : List FileResult) : Nat :=
  files.countP (fun r => !(r == FileResult.dumped))

theorem bytesOfNat16_length (be : Bool) (n : Nat) :
    (bytesOfNat16 be n).length = 2 := by
  cases be <;> simp [bytesOfNat16]

theorem bytesOfNat32_length (be : Bool) (n : Nat) :
    (bytesOfNat32 be n).length = 4 := by
  cases be <;> simp [bytesOfNat32]

theorem natOfBytes16_bytesOfNat16 (be : Bool) (n : Nat) (h : n < 65536) :
    ∀ b0 b1, bytesOfNat16 be n = [b0, b1] → natOfBytes16 be b0 b1 = n := by
  intro b0 b1 hb
  cases be <;> simp [bytesOfNat16] at hb <;>
    simp [natOfBytes16, ← hb.1, ← hb.2] <;> omega

theorem natOfBytes32_bytesOfNat32 (be : Bool) (n : Nat) (h : n < 4294967296) :
    ∀ b0 b1 b2 b3, bytesOfNat32 be n = [b0, b1, b2, b3] →
      natOfBytes32 be b0 b1 b2 b3 = n := by
  intro b0 b1 b2 b3 hb
  cases be <;> simp [bytesOfNat32] at hb <;>
    simp [natOfBytes32, ← hb.1, ← hb.2.1, ← hb.2.2.1, ← hb.2.2.2] <;> omega

theorem encodeTag_length (be : Bool) (t : Tag) :
    (encodeTag be t).length = 4 := by
  cases be <;> simp [encodeTag, bytesOfNat16]

theorem ofCodeBytes_codeBytes (vr : VR) :
    VR.ofCodeBytes vr.codeBytes.1 vr.codeBytes.2 = some vr := by
  cases vr <;> rfl

theorem splitComponents_no_delim (a : List Byte) (h : 92 ∉ a) :
    splitComponents a = [a] := by
  induction a with
  | nil => rfl
  | cons b rest ih =>
    simp only [List.mem_cons, not_or] at h
    simp [splitComponents, beq_iff_eq, Ne.symm h.1, ih h.2]

theorem splitComponents_append_delim (a r : List Byte) (h : 92 ∉ a) :
    splitComponents (a ++ 92 :: r) = a :: splitComponents r := by
  induction a with
  | nil => simp [splitComponents]
  | cons b rest ih =>
    simp only [List.mem_cons, not_or] at h
    have hne : (b == 92) = false := by
      simp only [beq_eq_false_iff_ne]
      exact Ne.symm h.1
    simp only [List.cons_append, splitComponents, hne, Bool.false_eq_true,
      if_false, List.append_eq]
    rw [ih h.2]

theorem splitComponents_join (xs : List (List Byte)) (hne : xs ≠ [])
    (h : ∀ c ∈ xs, 92 ∉ c) :
    splitComponents (joinComponents xs) = xs := by
  induction xs with
  | nil => exact absurd rfl hne
  | cons c cs ih =>
    cases cs with
    | nil =>
      simp only [joinComponents]
      exact splitComponents_no_delim c (h c (by simp))
    | cons d ds =>
      simp only [joinComponents]
      rw [splitComponents_append_delim c _ (h c (by simp))]
      rw [ih (by simp) (fun x hx => h x (by simp [hx]))]

theorem splitComponents_join_pad (xs : List (List Byte)) (hne : xs ≠ [])
    (h : ∀ c ∈ xs, 92 ∉ c) (pad : Byte) (hpad : pad ≠ 92) :
    splitComponents (joinComponents xs ++ [pad]) =
      mapLast (· ++ [pad]) xs := by
  induction xs with
  | nil => exact absurd rfl hne
  | cons c cs ih =>
    cases cs with
    | nil =>
      simp only [joinComponents, mapLast]
      refine splitComponents_no_delim (c ++ [pad]) ?_
      simp only [List.mem_append, List.mem_singleton]
      push_neg
      exact ⟨h c (by simp), fun hq => hpad hq.symm⟩
    | cons d ds =>
      simp only [joinComponents, mapLast, List.cons_append, List.append_assoc]
      rw [splitComponents_append_delim c _ (h c (by simp))]
      rw [ih (by simp) (fun x hx => h x (by simp [hx]))]

theorem trimTrailing_append_pad (pad : Byte) (c : List Byte) :
    trimTrailing pad (c ++ [pad]) = trimTrailing pad c := by
  simp [trimTrailing, List.dropWhile]

theorem map_trim_mapLast (pad : Byte) (xs : List (List Byte))
    (htrim : ∀ c ∈ xs, trimTrailing pad c = c) :
    (mapLast (· ++ [pad]) xs).map (trimTrailing pad) = xs := by
  induction xs with
  | nil => rfl
  | cons c cs ih =>
    cases cs with
    | nil => simp [mapLast, trimTrailing_append_pad, htrim c (by simp)]
    | cons d ds =>
      simp only [mapLast, List.map_cons]
      rw [htrim c (by simp), ih (fun x hx => htrim x (by simp [hx]))]

theorem decodeStrs_encodeStrs (pad : Byte) (xs : List (List Byte))
    (hpad : pad ≠ 92) (hne : xs ≠ [])
    (h : ∀ c ∈ xs, 92 ∉ c ∧ trimTrailing pad c = c) :
    decodeStrs pad (encodeStrs pad xs) = xs := by
  have hnb : ∀ c ∈ xs, 92 ∉ c := fun c hc => (h c hc).1
  have htrim : ∀ c ∈ xs, trimTrailing pad c = c := fun c hc => (h c hc).2
  unfold encodeStrs decodeStrs
  cases hodd : ((joinComponents xs).length % 2 == 1) with
  | true =>
    rw [if_pos hodd]
    rw [splitComponents_join_pad xs hne hnb pad hpad]
    exact map_trim_mapLast pad xs htrim
  | false =>
    rw [if_neg (by simp [hodd])]
    rw [splitComponents_join xs hne hnb]
    have h1 : xs.map (trimTrailing pad) = xs.map id :=
      List.map_congr_left (by simpa using htrim)
    simpa using h1

theorem decodeU16s_encode (be : Bool) (xs : List Nat)
    (h : ∀ x ∈ xs, x < 65536) :
    decodeU16s be (concatList (bytesOfNat16 be) xs) = some xs := by
  induction xs with
  | nil => rfl
  | cons x xs ih =>
    have hx := h x (by simp)
    have ihh := ih (fun y hy => h y (by simp [hy]))
    cases be
    case false =>
      simp only [concatList, bytesOfNat16, Bool.false_eq_true, if_false,
        List.cons_append, List.nil_append, decodeU16s]
      have hv : natOfBytes16 false (x % 256) (x / 256 % 256) = x := by
        simp only [natOfBytes16, Bool.false_eq_true, if_false]
        omega
      rw [hv]
      simp [List.append_eq, ihh]
    case true =>
      simp only [concatList, bytesOfNat16, if_true,
        List.cons_append, List.nil_append, decodeU16s]
      have hv : natOfBytes16 true (x / 256 % 256) (x % 256) = x := by
        simp only [natOfBytes16, if_true]
        omega
      rw [hv]
      simp [List.append_eq, ihh]

theorem decodeU32s_encode (be : Bool) (xs : List Nat)
    (h : ∀ x ∈ xs, x < 4294967296) :
    decodeU32s be (concatList (bytesOfNat32 be) xs) = some xs := by
  induction xs with
  | nil => rfl
  | cons x xs ih =>
    have hx := h x (by simp)
    have ihh := ih (fun y hy => h y (by simp [hy]))
    cases be
    case false =>
      simp only [concatList, bytesOfNat32, Bool.false_eq_true, if_false,
        List.cons_append, List.nil_append, decodeU32s]
      have hv : natOfBytes32 false (x % 256) (x / 256 % 256) (x / 65536 % 256)
          (x / 16777216 % 256) = x := by
        simp only [natOfBytes32, Bool.false_eq_true, if_false]
        omega
      rw [hv]
      simp [List.append_eq, ihh]
    case true =>
      simp only [concatList, bytesOfNat32, if_true,
        List.cons_append, List.nil_append, decodeU32s]
      have hv : natOfBytes32 true (x / 16777216 % 256) (x / 65536 % 256)
          (x / 256 % 256) (x % 256) = x := by
        simp only [natOfBytes32, if_true]
        omega
      rw [hv]
      simp [List.append_eq, ihh]

theorem decodeI16s_encode (be : Bool) (xs : List Int)
    (h : ∀ x ∈ xs, -32768 ≤ x ∧ x < 32768) :
    decodeI16s be (concatList (bytesOfInt16 be) xs) = some xs := by
  induction xs with
  | nil => rfl
  | cons x xs ih =>
    have hx := h x (by simp)
    have ihh := ih (fun y hy => h y (by simp [hy]))
    cases be
    case false =>
      simp only [concatList, bytesOfInt16, bytesOfNat16, Bool.false_eq_true,
        if_false, List.cons_append, List.nil_append, decodeI16s]
      have hv : intOfBytes16 false ((x % 65536).toNat % 256)
          ((x % 65536).toNat / 256 % 256) = x := by
        simp only [intOfBytes16, natOfBytes16, Bool.false_eq_true, if_false]
        omega
      rw [hv]
      simp [List.append_eq, ihh]
    case true =>
      simp only [concatList, bytesOfInt16, bytesOfNat16, if_true,
        List.cons_append, List.nil_append, decodeI16s]
      have hv : intOfBytes16 true ((x % 65536).toNat / 256 % 256)
          ((x % 65536).toNat % 256) = x := by
        simp only [intOfBytes16, natOfBytes16, if_true]
        omega
      rw [hv]
      simp [List.append_eq, ihh]

theorem decodeI32s_encode (be : Bool) (xs : List Int)
    (h : ∀ x ∈ xs, -2147483648 ≤ x ∧ x < 2147483648) :
    decodeI32s be (concatList (bytesOfInt32 be) xs) = some xs := by
  induction xs with
  | nil => rfl
  | cons x xs ih =>
    have hx := h x (by simp)
    have ihh := ih (fun y hy => h y (by simp [hy]))
    cases be
    case false =>
      simp only [concatList, bytesOfInt32, bytesOfNat32, Bool.false_eq_true,
        if_false, List.cons_append, List.nil_append, decodeI32s]
      have hv : intOfBytes32 false ((x % 4294967296).toNat % 256)
          ((x % 4294967296).toNat / 256 % 256)
          ((x % 4294967296).toNat / 65536 % 256)
          ((x % 4294967296).toNat / 16777216 % 256) = x := by
        simp only [intOfBytes32, natOfBytes32, Bool.false_eq_true, if_false]
        omega
      rw [hv]
      simp [List.append_eq, ihh]
    case true =>
      simp only [concatList, bytesOfInt32, bytesOfNat32, if_true,
        List.cons_append, List.nil_append, decodeI32s]
      have hv : intOfBytes32 true ((x % 4294967296).toNat / 16777216 % 256)
          ((x % 4294967296).toNat / 65536 % 256)
          ((x % 4294967296).toNat / 256 % 256)
          ((x % 4294967296).toNat % 256) = x := by
        simp only [intOfBytes32, natOfBytes32, if_true]
        omega
      rw [hv]
      simp [List.append_eq, ihh]

theorem decodeATags_encode (be : Bool) (xs : List Tag)
    (h : ∀ x ∈ xs, x.group < 65536 ∧ x.elem < 65536) :
    decodeATags be (concatList (encodeTag be) xs) = some xs := by
  induction xs with
  | nil => rfl
  | cons x xs ih =>
    have hx := h x (by simp)
    have ihh := ih (fun y hy => h y (by simp [hy]))
    cases be
    case false =>
      simp only [concatList, encodeTag, bytesOfNat16, Bool.false_eq_true,
        if_false, List.cons_append, List.nil_append, List.append_assoc,
        decodeATags]
      have hg : natOfBytes16 false (x.group % 256) (x.group / 256 % 256) =
          x.group := by
        simp only [natOfBytes16, Bool.false_eq_true, if_false]
        omega
      have he : natOfBytes16 false (x.elem % 256) (x.elem / 256 % 256) =
          x.elem := by
        simp only [natOfBytes16, Bool.false_eq_true, if_false]
        omega
      rw [hg, he]
      simp [List.append_eq, ihh]
    case true =>
      simp only [concatList, encodeTag, bytesOfNat16, if_true,
        List.cons_append, List.nil_append, List.append_assoc, decodeATags]
      have hg : natOfBytes16 true (x.group / 256 % 256) (x.group % 256) =
          x.group := by
        simp only [natOfBytes16, if_true]
        omega
      have he : natOfBytes16 true (x.elem / 256 % 256) (x.elem % 256) =
          x.elem := by
        simp only [natOfBytes16, if_true]
        omega
      rw [hg, he]
      simp [List.append_eq, ihh]

theorem padByte_ne_delim (vr : VR) : vr.padByte ≠ 92 := by
  cases vr <;> simp [VR.padByte]

theorem decodePrimValue_encode (be : Bool) (vr : VR) (v : PrimitiveValue)
    (hkind : v.kindOf = vr.kind) (hwf : wfValue vr v = true) :
    decodePrimValue be vr (encodePrimValue be vr v) = .ok v := by
  cases v with
  | strs xs =>
    have hk : vr.kind = .strKind := hkind ▸ rfl
    simp only [wfValue, Bool.and_eq_true, List.all_eq_true] at hwf
    obtain ⟨hne, hcomp⟩ := hwf
    have hne2 : xs ≠ [] := by
      intro h0
      rw [h0] at hne
      simp at hne
    simp only [encodePrimValue, decodePrimValue, hk]
    rw [decodeStrs_encodeStrs vr.padByte xs (padByte_ne_delim vr) hne2]
    intro c hc
    have h3 := hcomp c hc
    simp at h3
    exact h3
  | u16s xs =>
    have hk : vr.kind = .u16Kind := hkind ▸ rfl
    simp only [wfValue, List.all_eq_true, decide_eq_true_eq] at hwf
    simp only [encodePrimValue, decodePrimValue, hk,
      decodeU16s_encode be xs hwf]
  | u32s xs =>
    have hk : vr.kind = .u32Kind := hkind ▸ rfl
    simp only [wfValue, List.all_eq_true, decide_eq_true_eq] at hwf
    simp only [encodePrimValue, decodePrimValue, hk,
      decodeU32s_encode be xs hwf]
  | i16s xs =>
    have hk : vr.kind = .i16Kind := hkind ▸ rfl
    simp only [wfValue, List.all_eq_true, Bool.and_eq_true,
      decide_eq_true_eq] at hwf
    simp only [encodePrimValue, decodePrimValue, hk,
      decodeI16s_encode be xs hwf]
  | i32s xs =>
    have hk : vr.kind = .i32Kind := hkind ▸ rfl
    simp only [wfValue, List.all_eq_true, Bool.and_eq_true,
      decide_eq_true_eq] at hwf
    simp only [encodePrimValue, decodePrimValue, hk,
      decodeI32s_encode be xs hwf]
  | atags xs =>
    have hk : vr.kind = .tagKind := hkind ▸ rfl
    simp only [wfValue, List.all_eq_true, Bool.and_eq_true,
      decide_eq_true_eq] at hwf
    simp only [encodePrimValue, decodePrimValue, hk,
      decodeATags_encode be xs hwf]
  | bytes bs =>
    have hk : vr.kind = .bytesKind := hkind ▸ rfl
    simp only [encodePrimValue, decodePrimValue, hk]

theorem bytesOfNat16_cons (be : Bool) (n : Nat) :
    ∃ b0 b1, bytesOfNat16 be n = [b0, b1] ∧
      (n < 65536 → natOfBytes16 be b0 b1 = n) := by
  cases be
  case false =>
    refine ⟨n % 256, n / 256 % 256, rfl, fun h => ?_⟩
    simp only [natOfBytes16, Bool.false_eq_true, if_false]
    omega
  case true =>
    refine ⟨n / 256 % 256, n % 256, rfl, fun h => ?_⟩
    simp only [natOfBytes16, if_true]
    omega

theorem bytesOfNat32_cons (be : Bool) (n : Nat) :
    ∃ b0 b1 b2 b3, bytesOfNat32 be n = [b0, b1, b2, b3] ∧
      (n < 4294967296 → natOfBytes32 be b0 b1 b2 b3 = n) := by
  cases be
  case false =>
    refine ⟨n % 256, n / 256 % 256, n / 65536 % 256, n / 16777216 % 256,
      rfl, fun h => ?_⟩
    simp only [natOfBytes32, Bool.false_eq_true, if_false]
    omega
  case true =>
    refine ⟨n / 16777216 % 256, n / 65536 % 256, n / 256 % 256, n % 256,
      rfl, fun h => ?_⟩
    simp only [natOfBytes32, if_true]
    omega

theorem readTag_encodeTag (be : Bool) (t : Tag) (rest : List Byte)
    (hg : t.group < 65536) (he : t.elem < 65536) :
    readTag be (encodeTag be t ++ rest) = .ok (t, rest) := by
  obtain ⟨g0, g1, hgb, hgn⟩ := bytesOfNat16_cons be t.group
  obtain ⟨e0, e1, heb, hen⟩ := bytesOfNat16_cons be t.elem
  simp only [encodeTag, hgb, heb, List.cons_append, List.nil_append, readTag]
  rw [hgn hg, hen he]

theorem readHeader_encodeHeader (cfg : DecodeCfg) (t : Tag) (vr : VR)
    (len : Nat) (rest : List Byte)
    (hg : t.group < 65536) (he : t.elem < 65536)
    (hd : t.isDelimiter = false) (hlen : len < headerLimit cfg.ts vr) :
    readHeader cfg (encodeHeader cfg.ts t vr len ++ rest) =
      .ok (t, if cfg.ts.explicitVr then vr else implicitVrOf cfg t,
        len, rest) := by
  unfold encodeHeader headerLimit at *
  cases hexp : cfg.ts.explicitVr
  case false =>
    rw [hexp] at hlen
    simp only [Bool.false_eq_true, if_false, List.append_assoc]
    obtain ⟨b0, b1, b2, b3, hb, hn⟩ :=
      bytesOfNat32_cons cfg.ts.bigEndian len
    simp only [readHeader,
      readTag_encodeTag cfg.ts.bigEndian t _ hg he, hd, Bool.false_eq_true,
      if_false, readVrLen, hexp, hb, List.cons_append, List.nil_append]
    rw [hn (by simpa using hlen)]
  case true =>
    rw [hexp] at hlen
    cases hlong : vr.isLong
    case true =>
      rw [hlong] at hlen
      simp only [hexp, hlong, if_true, List.append_assoc]
      obtain ⟨b0, b1, b2, b3, hb, hn⟩ :=
        bytesOfNat32_cons cfg.ts.bigEndian len
      simp only [readHeader,
        readTag_encodeTag cfg.ts.bigEndian t _ hg he, hd, Bool.false_eq_true,
        if_false, readVrLen, hexp, hb, List.cons_append, List.nil_append,
        ofCodeBytes_codeBytes, hlong, if_true]
      rw [hn (by simpa using hlen)]
    case false =>
      rw [hlong] at hlen
      simp only [hexp, hlong, if_true, Bool.false_eq_true, if_false,
        List.append_assoc]
      obtain ⟨b0, b1, hb, hn⟩ := bytesOfNat16_cons cfg.ts.bigEndian len
      simp only [readHeader,
        readTag_encodeTag cfg.ts.bigEndian t _ hg he, hd, Bool.false_eq_true,
        if_false, readVrLen, hexp, hb, List.cons_append, List.nil_append,
        ofCodeBytes_codeBytes, hlong, if_true]
      rw [hn (by simpa using hlen)]

theorem readItemHeader_encodeItemHeader (be : Bool) (t : Tag) (len : Nat)
    (rest : List Byte) (hg : t.group < 65536) (he : t.elem < 65536)
    (hlen : len < 4294967296) :
    readItemHeader be (encodeItemHeader be t len ++ rest) =
      .ok (t, len, rest) := by
  obtain ⟨g0, g1, hgb, hgn⟩ := bytesOfNat16_cons be t.group
  obtain ⟨e0, e1, heb, hen⟩ := bytesOfNat16_cons be t.elem
  obtain ⟨b0, b1, b2, b3, hb, hn⟩ := bytesOfNat32_cons be len
  simp only [encodeItemHeader, encodeTag, hgb, heb, hb, List.cons_append,
    List.nil_append, List.append_assoc, readItemHeader]
  rw [hgn hg, hen he, hn hlen]

theorem sizeElement_pos (e : DataElement) : 1 ≤ sizeElement e := by
  cases e <;> simp only [sizeElement] <;> omega

theorem sizeElemList_pos (es : List DataElement) : 1 ≤ sizeElemList es := by
  cases es <;> simp only [sizeElemList] <;> omega

theorem sizeItemList_pos (its : List (List DataElement)) :
    1 ≤ sizeItemList its := by
  cases its <;> simp only [sizeItemList] <;> omega

theorem append_ne_nil_left {a b : List Byte} (h : a ≠ []) : a ++ b ≠ [] := by
  cases a with
  | nil => exact absurd rfl h
  | cons x xs => simp

theorem encodeHeader_ne_nil (ts : TransferSyntax) (t : Tag) (vr : VR)
    (len : Nat) : encodeHeader ts t vr len ≠ [] := by
  obtain ⟨g0, g1, hgb, _⟩ := bytesOfNat16_cons ts.bigEndian t.group
  unfold encodeHeader encodeTag
  rw [hgb]
  cases ts.explicitVr <;> cases vr.isLong <;> simp

theorem encodeElement_ne_nil (ts : TransferSyntax) (e : DataElement) :
    encodeElement ts e ≠ [] := by
  cases e with
  | prim t vr v =>
    exact append_ne_nil_left (encodeHeader_ne_nil ts t vr _)
  | emptyElem t vr => exact encodeHeader_ne_nil ts t vr 0
  | seqElem t items =>
    exact append_ne_nil_left (encodeHeader_ne_nil ts t .SQ _)
  | pixelSeq t offs frags =>
    exact append_ne_nil_left (append_ne_nil_left
      (append_ne_nil_left (encodeHeader_ne_nil ts t .OB _)))

theorem decodeElems_ne_nil (cfg : DecodeCfg) (f : Nat) (bytes : List Byte)
    (h : bytes ≠ []) :
    decodeElems cfg (f + 1) bytes =
      match decodeElem cfg f bytes with
      | .error e => .error e
      | .ok (e, rest) =>
        match decodeElems cfg f rest with
        | .error e2 => .error e2
        | .ok es => .ok (e :: es) := by
  cases bytes with
  | nil => exact absurd rfl h
  | cons b bs => rfl

theorem decodeItemsAll_ne_nil (cfg : DecodeCfg) (f : Nat)
    (bytes : List Byte) (h : bytes ≠ []) :
    decodeItemsAll cfg (f + 1) bytes =
      match readItemHeader cfg.ts.bigEndian bytes with
      | .error e => .error e
      | .ok (t, len, rest) =>
        if t = itemTag then
          if len = UNDEFINED_LEN then
            match decodeElemsUntilItemDelim cfg f rest with
            | .error e => .error e
            | .ok (els, rest2) =>
              match decodeItemsAll cfg f rest2 with
              | .error e => .error e
              | .ok items => .ok (els :: items)
          else if len ≤ rest.length then
            match decodeElems cfg f (rest.take len) with
            | .error e => .error e
            | .ok els =>
              match decodeItemsAll cfg f (rest.drop len) with
              | .error e => .error e
              | .ok items => .ok (els :: items)
          else .error .unexpectedEof
        else .error .invalidItemHeader := by
  cases bytes with
  | nil => exact absurd rfl h
  | cons b bs => rfl

theorem decodeFragments_encode (be : Bool) (fs : List (List Byte))
    (tail : List Byte) (fuel : Nat)
    (hwf : ∀ f ∈ fs, f.length < UNDEFINED_LEN)
    (hfuel : fs.length + 1 ≤ fuel) :
    decodeFragments be fuel
      (concatList (fun f => encodeItemHeader be itemTag f.length ++ f) fs ++
        encodeItemHeader be seqDelimTag 0 ++ tail) = .ok (fs, tail) := by
  induction fs generalizing fuel with
  | nil =>
    obtain ⟨fl, rfl⟩ : ∃ fl, fuel = fl + 1 :=
      ⟨fuel - 1, by omega⟩
    simp only [concatList, List.nil_append, List.append_assoc]
    simp only [decodeFragments,
      readItemHeader_encodeItemHeader be seqDelimTag 0 tail
        (by norm_num [seqDelimTag]) (by norm_num [seqDelimTag])
        (by norm_num)]
    simp
  | cons f fs ih =>
    obtain ⟨fl, rfl⟩ : ∃ fl, fuel = fl + 1 :=
      ⟨fuel - 1, by omega⟩
    have hf := hwf f (by simp)
    simp only [concatList, List.append_assoc]
    simp only [decodeFragments,
      readItemHeader_encodeItemHeader be itemTag f.length _
        (by norm_num [itemTag]) (by norm_num [itemTag])
        (by simp only [UNDEFINED_LEN] at hf; omega)]
    rw [if_pos trivial, if_neg (show ¬(f.length = UNDEFINED_LEN) from by omega)]
    rw [if_pos (show f.length ≤ (f ++ (concatList
      (fun f => encodeItemHeader be itemTag f.length ++ f) fs ++
      (encodeItemHeader be seqDelimTag 0 ++ tail))).length from by simp)]
    rw [List.take_left, List.drop_left]
    have ihh := ih fl (fun g hg => hwf g (by simp [hg]))
      (by simp at hfuel ⊢; omega)
    rw [List.append_assoc] at ihh
    rw [ihh]
    rw [if_neg (show ¬(itemTag = seqDelimTag) from by decide)]

theorem wfTag_spec (t : Tag) (h : wfTag t = true) :
    t.group < 65536 ∧ t.elem < 65536 ∧ t.isDelimiter = false := by
  simp only [wfTag, Bool.and_eq_true, decide_eq_true_eq,
    Bool.not_eq_true'] at h
  exact ⟨h.1.1, h.1.2, h.2⟩

theorem kindOf_ne_seqKind (v : PrimitiveValue) :
    v.kindOf ≠ ValueKind.seqKind := by
  cases v <;> simp [PrimitiveValue.kindOf]

theorem ne_SQ_of_kindMatch {vr : VR} {v : PrimitiveValue}
    (h : v.kindOf = vr.kind) : vr ≠ VR.SQ := by
  intro he
  exact kindOf_ne_seqKind v (by simp [h, he, VR.kind])

theorem lt_lenLimit_ne_undef {ts : TransferSyntax} {vr : VR} {n : Nat}
    (h : n < lenLimit ts vr) : n ≠ UNDEFINED_LEN := by
  unfold lenLimit at h
  split at h
  · simp only [UNDEFINED_LEN]
    omega
  · simp only [UNDEFINED_LEN] at h ⊢
    omega

theorem lenLimit_le_headerLimit (ts : TransferSyntax) (vr : VR) :
    lenLimit ts vr ≤ headerLimit ts vr := by
  unfold lenLimit headerLimit UNDEFINED_LEN
  split <;> norm_num

theorem headerLimit_of_long {ts : TransferSyntax} {vr : VR}
    (h : vr.isLong = true) : headerLimit ts vr = 4294967296 := by
  simp [headerLimit, h]

theorem headerLimit_pos (ts : TransferSyntax) (vr : VR) :
    0 < headerLimit ts vr := by
  unfold headerLimit
  split <;> norm_num

theorem encodeItemHeader_ne_nil (be : Bool) (t : Tag) (len : Nat) :
    encodeItemHeader be t len ≠ [] := by
  obtain ⟨g0, g1, hgb, _⟩ := bytesOfNat16_cons be t.group
  unfold encodeItemHeader encodeTag
  rw [hgb]
  simp

theorem rtPrim (t : Tag) (vr : VR) (v : PrimitiveValue) :
    RtElem (.prim t vr v) := by
  intro cfg fuel rest hwf hsz
  simp only [sizeElement] at hsz
  obtain ⟨f, rfl⟩ : ∃ f, fuel = f + 1 := ⟨fuel - 1, by omega⟩
  simp only [wfElement, Bool.and_eq_true, Bool.or_eq_true, beq_iff_eq,
    decide_eq_true_eq] at hwf
  obtain ⟨⟨⟨⟨⟨htag, hkind⟩, hval⟩, hvr⟩, hpos⟩, hlim⟩ := hwf
  obtain ⟨hg, he, hd⟩ := wfTag_spec t htag
  have hif : (if cfg.ts.explicitVr = true then vr else implicitVrOf cfg t) =
      vr := by
    cases hexp : cfg.ts.explicitVr
    case true => simp
    case false =>
      rcases hvr with h1 | h1
      · rw [hexp] at h1
        cases h1
      · simpa using h1
  have hread := readHeader_encodeHeader cfg t vr
    (encodePrimValue cfg.ts.bigEndian vr v).length
    (encodePrimValue cfg.ts.bigEndian vr v ++ rest) hg he hd
    (lt_of_lt_of_le hlim (lenLimit_le_headerLimit cfg.ts vr))
  rw [hif] at hread
  simp only [encodeElement, List.append_assoc]
  simp only [decodeElem, hread]
  rw [if_neg (lt_lenLimit_ne_undef hlim)]
  rw [if_neg (ne_SQ_of_kindMatch hkind)]
  rw [if_neg (show ¬((encodePrimValue cfg.ts.bigEndian vr v).length = 0)
    from by omega)]
  rw [if_pos (show (encodePrimValue cfg.ts.bigEndian vr v).length ≤
    (encodePrimValue cfg.ts.bigEndian vr v ++ rest).length from by simp)]
  rw [List.take_left, List.drop_left]
  rw [decodePrimValue_encode cfg.ts.bigEndian vr v hkind hval]

theorem rtEmpty (t : Tag) (vr : VR) : RtElem (.emptyElem t vr) := by
  intro cfg fuel rest hwf hsz
  simp only [sizeElement] at hsz
  obtain ⟨f, rfl⟩ : ∃ f, fuel = f + 1 := ⟨fuel - 1, by omega⟩
  simp only [wfElement, Bool.and_eq_true, Bool.or_eq_true, beq_iff_eq,
    Bool.not_eq_true'] at hwf
  obtain ⟨⟨htag, hsq⟩, hvr⟩ := hwf
  obtain ⟨hg, he, hd⟩ := wfTag_spec t htag
  have hif : (if cfg.ts.explicitVr = true then vr else implicitVrOf cfg t) =
      vr := by
    cases hexp : cfg.ts.explicitVr
    case true => simp
    case false =>
      rcases hvr with h1 | h1
      · rw [hexp] at h1
        cases h1
      · simpa using h1
  have hread := readHeader_encodeHeader cfg t vr 0 rest hg he hd
    (headerLimit_pos cfg.ts vr)
  rw [hif] at hread
  simp only [encodeElement]
  simp only [decodeElem, hread]
  rw [if_neg (show ¬((0:Nat) = UNDEFINED_LEN) from by
    simp only [UNDEFINED_LEN]
    omega)]
  rw [if_neg (show vr ≠ VR.SQ from by
    intro h1
    rw [h1] at hsq
    simp [beq_iff_eq] at hsq)]
  simp

theorem rtSeq (t : Tag) (items : List (List DataElement))
    (hit : RtItems items) : RtElem (.seqElem t items) := by
  intro cfg fuel rest hwf hsz
  simp only [sizeElement] at hsz
  obtain ⟨f, rfl⟩ : ∃ f, fuel = f + 1 := ⟨fuel - 1, by omega⟩
  simp only [wfElement, Bool.and_eq_true, Bool.or_eq_true, beq_iff_eq,
    decide_eq_true_eq] at hwf
  obtain ⟨⟨⟨htag, hvr⟩, hlen⟩, hwfit⟩ := hwf
  obtain ⟨hg, he, hd⟩ := wfTag_spec t htag
  have hif : (if cfg.ts.explicitVr = true then VR.SQ
      else implicitVrOf cfg t) = VR.SQ := by
    cases hexp : cfg.ts.explicitVr
    case true => simp
    case false =>
      rcases hvr with h1 | h1
      · rw [hexp] at h1
        cases h1
      · simpa using h1
  have hlen2 : (encodeItemList cfg.ts items).length <
      headerLimit cfg.ts VR.SQ := by
    rw [headerLimit_of_long (show VR.SQ.isLong = true from rfl)]
    simp only [UNDEFINED_LEN] at hlen
    omega
  have hread := readHeader_encodeHeader cfg t VR.SQ
    (encodeItemList cfg.ts items).length
    (encodeItemList cfg.ts items ++ rest) hg he hd hlen2
  rw [hif] at hread
  simp only [encodeElement, List.append_assoc]
  simp only [decodeElem, hread]
  rw [if_neg (show ¬((encodeItemList cfg.ts items).length = UNDEFINED_LEN)
    from by simp only [UNDEFINED_LEN] at hlen ⊢; omega)]
  rw [if_pos trivial]
  rw [if_pos (show (encodeItemList cfg.ts items).length ≤
    (encodeItemList cfg.ts items ++ rest).length from by simp)]
  rw [List.take_left, List.drop_left]
  simp only [hit cfg f hwfit (by omega)]

theorem rtPixel (t : Tag) (offs : List Byte) (frags : List (List Byte)) :
    RtElem (.pixelSeq t offs frags) := by
  intro cfg fuel rest hwf hsz
  simp only [sizeElement] at hsz
  obtain ⟨f, rfl⟩ : ∃ f, fuel = f + 1 := ⟨fuel - 1, by omega⟩
  simp only [wfElement, Bool.and_eq_true, Bool.or_eq_true, beq_iff_eq,
    decide_eq_true_eq, List.all_eq_true, Bool.not_eq_true',
    beq_eq_false_iff_ne] at hwf
  obtain ⟨⟨⟨⟨⟨hteq, hcmp⟩, hvrn⟩, hoev⟩, holen⟩, hfr⟩ := hwf
  subst hteq
  have hg : pixelDataTag.group < 65536 := by norm_num [pixelDataTag]
  have he : pixelDataTag.elem < 65536 := by norm_num [pixelDataTag]
  have hd : pixelDataTag.isDelimiter = false := by decide
  have hread := readHeader_encodeHeader cfg pixelDataTag VR.OB
    UNDEFINED_LEN
    ((encodeItemHeader cfg.ts.bigEndian itemTag offs.length ++
      (offs ++ (concatList
        (fun fr => encodeItemHeader cfg.ts.bigEndian itemTag fr.length ++ fr)
        frags ++
        (encodeItemHeader cfg.ts.bigEndian seqDelimTag 0 ++ rest)))))
    hg he hd
    (by rw [headerLimit_of_long (show VR.OB.isLong = true from rfl)]
        simp only [UNDEFINED_LEN]
        omega)
  have hnsq : (if cfg.ts.explicitVr = true then VR.OB
      else implicitVrOf cfg pixelDataTag) ≠ VR.SQ := by
    cases hexp : cfg.ts.explicitVr
    case true => simp
    case false =>
      rcases hvrn with h1 | h1
      · rw [hexp] at h1
        cases h1
      · simpa using h1
  have hfragsEq := decodeFragments_encode cfg.ts.bigEndian (offs :: frags)
    rest f
    (by intro g hg2
        rcases List.mem_cons.mp hg2 with h1 | h1
        · rw [h1]
          simp only [UNDEFINED_LEN] at holen ⊢
          omega
        · have := (hfr g h1).2
          simp only [UNDEFINED_LEN] at this ⊢
          omega)
    (by simp only [List.length_cons]
        omega)
  simp only [concatList, List.append_assoc] at hfragsEq
  simp only [encodeElement, List.append_assoc]
  simp only [decodeElem, hread]
  rw [if_pos trivial]
  rw [if_neg hnsq]
  rw [if_pos trivial]
  rw [if_pos hcmp]
  rw [hfragsEq]

theorem rtNil : RtElems [] := by
  intro cfg fuel hwf hsz
  simp only [sizeElemList] at hsz
  obtain ⟨f, rfl⟩ : ∃ f, fuel = f + 1 := ⟨fuel - 1, by omega⟩
  rfl

theorem rtCons (e : DataElement) (es : List DataElement)
    (he : RtElem e) (hes : RtElems es) : RtElems (e :: es) := by
  intro cfg fuel hwf hsz
  simp only [wfElemList, Bool.and_eq_true] at hwf
  simp only [sizeElemList] at hsz
  obtain ⟨f, rfl⟩ : ∃ f, fuel = f + 1 := ⟨fuel - 1, by omega⟩
  have hA := sizeElement_pos e
  have hB := sizeElemList_pos es
  simp only [encodeElemList]
  rw [decodeElems_ne_nil cfg f _
    (append_ne_nil_left (encodeElement_ne_nil cfg.ts e))]
  simp only [he cfg f (encodeElemList cfg.ts es) hwf.1 (by omega),
    hes cfg f hwf.2 (by omega)]

theorem rtINil : RtItems [] := by
  intro cfg fuel hwf hsz
  simp only [sizeItemList] at hsz
  obtain ⟨f, rfl⟩ : ∃ f, fuel = f + 1 := ⟨fuel - 1, by omega⟩
  rfl

theorem rtICons (it : List DataElement) (its : List (List DataElement))
    (hq : RtElems it) (hr : RtItems its) : RtItems (it :: its) := by
  intro cfg fuel hwf hsz
  simp only [wfItemList, Bool.and_eq_true, decide_eq_true_eq] at hwf
  obtain ⟨⟨hblen, hwf1⟩, hwf2⟩ := hwf
  simp only [sizeItemList] at hsz
  obtain ⟨f, rfl⟩ : ∃ f, fuel = f + 1 := ⟨fuel - 1, by omega⟩
  have hA := sizeElemList_pos it
  have hB := sizeItemList_pos its
  simp only [encodeItemList, List.append_assoc]
  rw [decodeItemsAll_ne_nil cfg f _
    (append_ne_nil_left (encodeItemHeader_ne_nil cfg.ts.bigEndian itemTag _))]
  simp only [readItemHeader_encodeItemHeader cfg.ts.bigEndian itemTag
    (encodeElemList cfg.ts it).length _
    (by norm_num [itemTag]) (by norm_num [itemTag])
    (by simp only [UNDEFINED_LEN] at hblen; omega)]
  rw [if_pos trivial]
  rw [if_neg (show ¬((encodeElemList cfg.ts it).length = UNDEFINED_LEN)
    from by simp only [UNDEFINED_LEN] at hblen ⊢; omega)]
  rw [if_pos (show (encodeElemList cfg.ts it).length ≤
    (encodeElemList cfg.ts it ++ encodeItemList cfg.ts its).length
    from by simp)]
  rw [List.take_left, List.drop_left]
  simp only [hq cfg f hwf1 (by omega), hr cfg f hwf2 (by omega)]

/-- Every well-formed element list round-trips: this is the engine-level
inverse property combining all the per-constructor lemmas. -/
theorem rtElems_all (es : List DataElement) : RtElems es :=
  elemsRecAux RtElem RtElems RtItems rtPrim rtEmpty rtSeq rtPixel rtNil
    rtCons rtINil rtICons es

theorem wf_kindsOk (es : List DataElement) (cfg : DecodeCfg)
    (h : wfElemList cfg es = true) : firstMismatchList es = none := by
  refine elemsRecAux
    (fun e => ∀ cfg : DecodeCfg, wfElement cfg e = true →
      firstMismatchElem e = none)
    (fun es => ∀ cfg : DecodeCfg, wfElemList cfg es = true →
      firstMismatchList es = none)
    (fun its => ∀ cfg : DecodeCfg, wfItemList cfg its = true →
      firstMismatchItems its = none)
    ?_ ?_ ?_ ?_ ?_ ?_ ?_ ?_ es cfg h
  · intro t vr v cfg2 hwf
    simp only [wfElement, Bool.and_eq_true, beq_iff_eq] at hwf
    simp [firstMismatchElem, hwf.1.1.1.1.2]
  · intro t vr cfg2 hwf
    rfl
  · intro t items ih cfg2 hwf
    simp only [wfElement, Bool.and_eq_true] at hwf
    simp only [firstMismatchElem]
    exact ih cfg2 hwf.2
  · intro t offs frags cfg2 hwf
    rfl
  · intro cfg2 hwf
    rfl
  · intro e es ihe ihes cfg2 hwf
    simp only [wfElemList, Bool.and_eq_true] at hwf
    simp only [firstMismatchList, ihe cfg2 hwf.1]
    exact ihes cfg2 hwf.2
  · intro cfg2 hwf
    rfl
  · intro it its ihq ihr cfg2 hwf
    simp only [wfItemList, Bool.and_eq_true] at hwf
    simp only [firstMismatchItems, ihq cfg2 hwf.1.2]
    exact ihr cfg2 hwf.2

/-- C1: for every in-memory object (well-formed element list) and every
supported Transfer Syntax Descriptor, decoding the bytes produced by
encoding the object yields the object again, element for element,
including sequence nesting and pixel fragment boundaries. -/
theorem c1_encode_decode_roundtrip (cfg : DecodeCfg)
    (es : List DataElement) (fuel : Nat)
    (hwf : wfElemList cfg es = true) (hfuel : sizeElemList es ≤ fuel) :
    ∃ bs, encodeElements cfg.ts es = .ok bs ∧
      decodeElems cfg fuel bs = .ok es := by
  refine ⟨encodeElemList cfg.ts es, ?_, rtElems_all es cfg fuel hwf hfuel⟩
  unfold encodeElements
  rw [wf_kindsOk es cfg hwf]

theorem c1_encode_decode_roundtrip_witness :
    wfElemList sampleCfg sampleElems = true ∧
      sizeElemList sampleElems ≤ 40 ∧
      ∃ bs, encodeElements sampleCfg.ts sampleElems = .ok bs ∧
        decodeElems sampleCfg 40 bs = .ok sampleElems :=
  ⟨by decide, by decide,
    c1_encode_decode_roundtrip sampleCfg sampleElems 40 (by decide)
      (by decide)⟩

/-- C2: no decode or encode operation panics on malformed external
input.  Both engine entry points are total functions whose only failure
mode is returning a typed DicomError value to the caller. -/
theorem c2_no_panic_typed_results :
    (∀ (cfg : DecodeCfg) (fuel : Nat) (bytes : List Byte),
      (∃ es, decodeElems cfg fuel bytes = .ok es) ∨
      (∃ e : DicomError, decodeElems cfg fuel bytes = .error e)) ∧
    (∀ (ts : TransferSyntax) (es : List DataElement),
      (∃ bs, encodeElements ts es = .ok bs) ∨
      (∃ e : DicomError, encodeElements ts es = .error e)) ∧
    (∀ (reg : List TransferSyntax) (dict : DataDictionary) (fuel : Nat)
      (bytes : List Byte),
      (∃ meta r ds, openFile reg dict fuel bytes = .success meta r ds) ∨
      (∃ e : DicomError, openFile reg dict fuel bytes = .metaFailure e) ∨
      (∃ meta, ∃ e : DicomError,
        openFile reg dict fuel bytes = .recoverableFailure meta e)) := by
  refine ⟨?_, ?_, ?_⟩
  · intro cfg fuel bytes
    cases h : decodeElems cfg fuel bytes with
    | ok es => exact Or.inl ⟨es, rfl⟩
    | error e => exact Or.inr ⟨e, rfl⟩
  · intro ts es
    cases h : encodeElements ts es with
    | ok bs => exact Or.inl ⟨bs, rfl⟩
    | error e => exact Or.inr ⟨e, rfl⟩
  · intro reg dict fuel bytes
    cases h : openFile reg dict fuel bytes with
    | success meta r ds => exact Or.inl ⟨meta, r, ds, rfl⟩
    | metaFailure e => exact Or.inr (Or.inl ⟨e, rfl⟩)
    | recoverableFailure meta e => exact Or.inr (Or.inr ⟨meta, e, rfl⟩)

/-- C3: during stream decoding an undefined length field is accepted
only for the Sequence VR or for Pixel Data under a compressed transfer
syntax; for every other VR the decode fails with the fatal
InvalidElementLength error. -/
theorem c3_undefined_length_rejected (cfg : DecodeCfg) (fuel : Nat)
    (bytes : List Byte) (t : Tag) (vr : VR) (rest : List Byte)
    (hhdr : readHeader cfg bytes = .ok (t, vr, UNDEFINED_LEN, rest))
    (hsq : vr ≠ VR.SQ)
    (hpx : ¬(t = pixelDataTag ∧ cfg.ts.compressed = true)) :
    decodeElem cfg (fuel + 1) bytes = .error .invalidElementLength := by
  simp only [decodeElem, hhdr]
  rw [if_pos trivial]
  rw [if_neg hsq]
  by_cases hp : t = pixelDataTag
  · rw [if_pos hp]
    rw [if_neg (fun hc => hpx ⟨hp, hc⟩)]
  · rw [if_neg hp]

theorem c3_undefined_length_rejected_witness :
    readHeader ⟨explicitVrLittleEndian, [], []⟩
        (encodeHeader explicitVrLittleEndian ⟨8, 96⟩ VR.OB UNDEFINED_LEN) =
      .ok (⟨8, 96⟩, VR.OB, UNDEFINED_LEN, []) ∧
    VR.OB ≠ VR.SQ ∧
    ¬((⟨8, 96⟩ : Tag) = pixelDataTag ∧
      (⟨explicitVrLittleEndian, [], []⟩ : DecodeCfg).ts.compressed = true) ∧
    decodeElem ⟨explicitVrLittleEndian, [], []⟩ 5
        (encodeHeader explicitVrLittleEndian ⟨8, 96⟩ VR.OB UNDEFINED_LEN) =
      .error .invalidElementLength :=
  ⟨rfl, by decide, by decide,
    c3_undefined_length_rejected ⟨explicitVrLittleEndian, [], []⟩ 4
      (encodeHeader explicitVrLittleEndian ⟨8, 96⟩ VR.OB UNDEFINED_LEN)
      ⟨8, 96⟩ VR.OB [] rfl (by decide) (by decide)⟩

/-- C4: a data-dictionary lookup miss is never a decode error: the
resolver falls back to the Unknown VR with a synthetic name, and the
decoder accepts an implicit-VR element at such a tag, continuing with
VR Unknown. -/
theorem c4_dictionary_miss_fallback (d : DataDictionary) (t : Tag)
    (pc : Option (List Byte)) (hmiss : lookupDict d t pc = none) :
    resolveImplicit d t pc = (VR.UN, syntheticName t) ∧
    (∀ (cfg : DecodeCfg) (fuel : Nat) (rest : List Byte)
      (v : PrimitiveValue),
      wfElement cfg (.prim t VR.UN v) = true →
      decodeElem cfg (fuel + 1)
        (encodeElement cfg.ts (.prim t VR.UN v) ++ rest) =
        .ok (.prim t VR.UN v, rest)) := by
  constructor
  · simp [resolveImplicit, hmiss]
  · intro cfg fuel rest v hwf
    exact rtPrim t VR.UN v cfg (fuel + 1) rest hwf
      (by simp only [sizeElement]; omega)

theorem c4_dictionary_miss_fallback_witness :
    lookupDict [] ⟨9, 4097⟩ none = none ∧
      (resolveImplicit [] ⟨9, 4097⟩ none =
        (VR.UN, syntheticName ⟨9, 4097⟩) ∧
      (∀ (cfg : DecodeCfg) (fuel : Nat) (rest : List Byte)
        (v : PrimitiveValue),
        wfElement cfg (.prim ⟨9, 4097⟩ VR.UN v) = true →
        decodeElem cfg (fuel + 1)
          (encodeElement cfg.ts (.prim ⟨9, 4097⟩ VR.UN v) ++ rest) =
          .ok (.prim ⟨9, 4097⟩ VR.UN v, rest))) :=
  ⟨rfl, c4_dictionary_miss_fallback [] ⟨9, 4097⟩ none rfl⟩

/-- C6: encoding a sequence of data elements under any Transfer Syntax
Descriptor succeeds exactly when every Primitive Value kind matches its
declared VR; otherwise it fails with VrMismatch. -/
theorem c6_encode_fails_iff_vr_mismatch (ts : TransferSyntax)
    (es : List DataElement) :
    ((∃ bs, encodeElements ts es = .ok bs) ↔ kindsOkElems es = true) ∧
    (kindsOkElems es = false →
      ∃ t, encodeElements ts es = .error (.vrMismatch t)) := by
  constructor
  · constructor
    · rintro ⟨bs, hbs⟩
      unfold encodeElements at hbs
      unfold kindsOkElems
      cases h : firstMismatchList es with
      | none => rfl
      | some t =>
        rw [h] at hbs
        cases hbs
    · intro h
      unfold kindsOkElems at h
      unfold encodeElements
      cases h2 : firstMismatchList es with
      | none => exact ⟨encodeElemList ts es, rfl⟩
      | some t =>
        rw [h2] at h
        cases h
  · intro h
    unfold kindsOkElems at h
    unfold encodeElements
    cases h2 : firstMismatchList es with
    | none =>
      rw [h2] at h
      cases h
    | some t => exact ⟨t, rfl⟩

theorem tagLt_iff (a b : Tag) :
    Tag.lt a b = true ↔
      (a.group < b.group ∨ (a.group = b.group ∧ a.elem < b.elem)) := by
  simp [Tag.lt, Bool.or_eq_true, Bool.and_eq_true, beq_iff_eq,
    decide_eq_true_eq]

theorem tagLt_trans {a b c : Tag} (h1 : Tag.lt a b = true)
    (h2 : Tag.lt b c = true) : Tag.lt a c = true := by
  rw [tagLt_iff] at h1 h2 ⊢
  omega

theorem tagLt_of_not (a b : Tag) (hne : a ≠ b)
    (h : Tag.lt a b = false) : Tag.lt b a = true := by
  have hne2 : a.group ≠ b.group ∨ a.elem ≠ b.elem := by
    by_contra hc
    push_neg at hc
    exact hne (by cases a; cases b; simp_all)
  rw [tagLt_iff]
  rw [← Bool.not_eq_true, tagLt_iff] at h
  push_neg at h
  omega

theorem sortedByTag_congr_head (a b : DataElement)
    (h : a.tagOf = b.tagOf) (rest : List DataElement) :
    sortedByTag (a :: rest) = sortedByTag (b :: rest) := by
  cases rest <;> simp [sortedByTag, h]

theorem sorted_cons_put (e : DataElement) :
    ∀ (xs : List DataElement) (y : DataElement),
      Tag.lt y.tagOf e.tagOf = true → sortedByTag (y :: xs) = true →
      sortedByTag (y :: put xs e) = true := by
  intro xs
  induction xs with
  | nil =>
    intro y hlt _
    simp [put, sortedByTag, hlt]
  | cons x rest ih =>
    intro y hlt h
    simp only [sortedByTag, Bool.and_eq_true] at h
    obtain ⟨hyx, hxr⟩ := h
    simp only [put]
    by_cases heq : e.tagOf = x.tagOf
    · rw [if_pos heq]
      simp only [sortedByTag, Bool.and_eq_true]
      refine ⟨hlt, ?_⟩
      rw [sortedByTag_congr_head e x heq]
      exact hxr
    · rw [if_neg heq]
      by_cases hlt2 : Tag.lt e.tagOf x.tagOf = true
      · rw [if_pos hlt2]
        simp only [sortedByTag, Bool.and_eq_true]
        exact ⟨hlt, hlt2, by simpa [sortedByTag] using hxr⟩
      · rw [if_neg hlt2]
        simp only [sortedByTag, Bool.and_eq_true]
        refine ⟨hyx, ?_⟩
        exact ih x
          (tagLt_of_not e.tagOf x.tagOf heq (by simpa using hlt2)) hxr

theorem put_sorted (obj : List DataElement) (e : DataElement)
    (h : sortedByTag obj = true) : sortedByTag (put obj e) = true := by
  cases obj with
  | nil => rfl
  | cons x xs =>
    simp only [put]
    by_cases heq : e.tagOf = x.tagOf
    · rw [if_pos heq]
      rw [sortedByTag_congr_head e x heq]
      exact h
    · rw [if_neg heq]
      by_cases hlt : Tag.lt e.tagOf x.tagOf = true
      · rw [if_pos hlt]
        simp only [sortedByTag, Bool.and_eq_true]
        exact ⟨hlt, h⟩
      · rw [if_neg hlt]
        exact sorted_cons_put e xs x
          (tagLt_of_not e.tagOf x.tagOf heq (by simpa using hlt)) h

theorem put_get (obj : List DataElement) (e : DataElement) :
    objGet (put obj e) e.tagOf = some e := by
  induction obj with
  | nil => simp [put, objGet, List.find?]
  | cons x xs ih =>
    simp only [put]
    by_cases heq : e.tagOf = x.tagOf
    · rw [if_pos heq]
      simp [objGet, List.find?]
    · rw [if_neg heq]
      by_cases hlt : Tag.lt e.tagOf x.tagOf = true
      · rw [if_pos hlt]
        simp [objGet, List.find?]
      · rw [if_neg hlt]
        simp only [objGet, List.find?]
        have hne : (x.tagOf == e.tagOf) = false := by
          simp only [beq_eq_false_iff_ne]
          exact fun hc => heq hc.symm
        rw [hne]
        exact ih

theorem sorted_pairwise_lt (obj : List DataElement)
    (h : sortedByTag obj = true) :
    obj.Pairwise (fun a b => Tag.lt a.tagOf b.tagOf = true) := by
  induction obj with
  | nil => exact List.Pairwise.nil
  | cons x xs ih =>
    cases xs with
    | nil => exact List.pairwise_singleton _ x
    | cons y rest =>
      simp only [sortedByTag, Bool.and_eq_true] at h
      have hp := ih h.2
      refine List.Pairwise.cons ?_ hp
      intro b hb
      rcases List.mem_cons.mp hb with h1 | h1
      · rw [h1]
        exact h.1
      · have hyb := (List.pairwise_cons.mp hp).1 b h1
        exact tagLt_trans h.1 hyb

theorem sorted_tags_distinct (obj : List DataElement)
    (h : sortedByTag obj = true) :
    obj.Pairwise (fun a b => a.tagOf ≠ b.tagOf) := by
  refine (sorted_pairwise_lt obj h).imp ?_
  intro a b hab hc
  rw [hc] at hab
  rw [tagLt_iff] at hab
  omega

theorem buildObject_sorted (es : List DataElement) :
    sortedByTag (buildObject es) = true := by
  unfold buildObject
  have hgen : ∀ acc, sortedByTag acc = true →
      sortedByTag (es.foldl put acc) = true := by
    induction es with
    | nil => intro acc h; exact h
    | cons e es ih =>
      intro acc h
      exact ih (put acc e) (put_sorted acc e h)
  exact hgen [] rfl

/-- C5: elements of a data set or item are kept in strictly increasing
tag order with no duplicate tags, an object built from decoded elements
satisfies the invariant, and put preserves it while replacing any
existing element at the same tag (last write wins). -/
theorem c5_tag_order_invariant (obj : List DataElement)
    (e : DataElement) (es : List DataElement)
    (hs : sortedByTag obj = true) :
    sortedByTag (put obj e) = true ∧
    objGet (put obj e) e.tagOf = some e ∧
    obj.Pairwise (fun a b => a.tagOf ≠ b.tagOf) ∧
    sortedByTag (buildObject es) = true :=
  ⟨put_sorted obj e hs, put_get obj e, sorted_tags_distinct obj hs,
    buildObject_sorted es⟩

theorem c5_tag_order_invariant_witness :
    sortedByTag sampleElems = true ∧
      (sortedByTag (put sampleElems (.emptyElem ⟨40, 16⟩ .US)) = true ∧
      objGet (put sampleElems (.emptyElem ⟨40, 16⟩ .US)) ⟨40, 16⟩ =
        some (.emptyElem ⟨40, 16⟩ .US) ∧
      sampleElems.Pairwise (fun a b => a.tagOf ≠ b.tagOf) ∧
      sortedByTag (buildObject sampleElems) = true) :=
  ⟨by decide,
    c5_tag_order_invariant sampleElems (.emptyElem ⟨40, 16⟩ .US)
      sampleElems (by decide)⟩

/-- C7: resolving a transfer-syntax UID that is not in the registry
fails with UnsupportedTransferSyntax; the failure leaves the already
read File Meta fields accessible in the outcome and happens before any
main-data-set decoding: the outcome does not depend on the bytes after
the meta group. -/
theorem c7_unsupported_transfer_syntax (reg : List TransferSyntax)
    (dict : DataDictionary) (fuel : Nat) (bytes : List Byte)
    (metaEs : List DataElement) (rest : List Byte) (r : ResolvedMeta)
    (hmeta : decodeMetaGroup fuel bytes = .ok (metaEs, rest))
    (hres : resolveMetaTable (buildMetaTable metaEs) = .ok r)
    (hmiss : reg.find? (fun ts => ts.uid == r.transferSyntaxUid) = none) :
    resolveTransferSyntax reg r.transferSyntaxUid =
      .error (.unsupportedTransferSyntax r.transferSyntaxUid) ∧
    openFile reg dict fuel bytes =
      .recoverableFailure (buildMetaTable metaEs)
        (.unsupportedTransferSyntax r.transferSyntaxUid) ∧
    (∀ (bytes2 : List Byte) (rest2 : List Byte),
      decodeMetaGroup fuel bytes2 = .ok (metaEs, rest2) →
      openFile reg dict fuel bytes2 = openFile reg dict fuel bytes) := by
  have hts : resolveTransferSyntax reg r.transferSyntaxUid =
      .error (.unsupportedTransferSyntax r.transferSyntaxUid) := by
    unfold resolveTransferSyntax
    rw [hmiss]
  refine ⟨hts, ?_, ?_⟩
  · unfold openFile
    rw [hmeta]
    simp only [hres, hts]
  · intro bytes2 rest2 hmeta2
    unfold openFile
    rw [hmeta, hmeta2]
    simp only [hres, hts]

/-- C8: the File Meta Table transition from Unparsed to Resolved
succeeds exactly when the Transfer Syntax UID, SOP Class UID and SOP
Instance UID are all present, fails with MissingRequiredMetaElement
otherwise, and the main Stream Decoder runs only after the Resolved
state is reached: a successful full-stream decode certifies the
resolution. -/
theorem c8_meta_resolution (m : FileMetaTable) :
    ((∃ r, resolveMetaTable m = .ok r) ↔
      (m.transferSyntaxUid.isSome = true ∧
        m.mediaStorageSopClassUid.isSome = true ∧
        m.mediaStorageSopInstanceUid.isSome = true)) ∧
    ((m.transferSyntaxUid = none ∨ m.mediaStorageSopClassUid = none ∨
        m.mediaStorageSopInstanceUid = none) →
      resolveMetaTable m = .error .missingRequiredMetaElement) ∧
    (∀ (reg : List TransferSyntax) (dict : DataDictionary) (fuel : Nat)
      (bytes : List Byte) (meta : FileMetaTable) (r : ResolvedMeta)
      (ds : List DataElement),
      openFile reg dict fuel bytes = .success meta r ds →
      resolveMetaTable meta = .ok r) := by
  refine ⟨⟨?_, ?_⟩, ?_, ?_⟩
  · rintro ⟨r, hr⟩
    unfold resolveMetaTable at hr
    cases h1 : m.transferSyntaxUid <;> rw [h1] at hr <;>
      cases h2 : m.mediaStorageSopClassUid <;> rw [h2] at hr <;>
        cases h3 : m.mediaStorageSopInstanceUid <;> rw [h3] at hr <;>
          simp_all
  · rintro ⟨h1, h2, h3⟩
    obtain ⟨a, ha⟩ := Option.isSome_iff_exists.mp h1
    obtain ⟨b, hb⟩ := Option.isSome_iff_exists.mp h2
    obtain ⟨c, hc⟩ := Option.isSome_iff_exists.mp h3
    exact ⟨⟨a, b, c⟩, by unfold resolveMetaTable; rw [ha, hb, hc]⟩
  · intro h
    unfold resolveMetaTable
    rcases h with h1 | h1 | h1
    · rw [h1]
    · cases m.transferSyntaxUid <;> rw [h1]
    · cases m.transferSyntaxUid <;> cases m.mediaStorageSopClassUid <;>
        rw [h1]
  · intro reg dict fuel bytes meta r ds hsucc
    unfold openFile at hsucc
    cases h1 : decodeMetaGroup fuel bytes with
    | error e =>
      rw [h1] at hsucc
      cases hsucc
    | ok p =>
      obtain ⟨metaEs, rest⟩ := p
      rw [h1] at hsucc
      simp only at hsucc
      cases h2 : resolveMetaTable (buildMetaTable metaEs) with
      | error e =>
        rw [h2] at hsucc
        cases hsucc
      | ok r2 =>
        simp only [h2] at hsucc
        cases h3 : resolveTransferSyntax reg r2.transferSyntaxUid with
        | error e =>
          simp only [h3] at hsucc
          cases hsucc
        | ok ts =>
          simp only [h3] at hsucc
          cases h4 : decodeElems ⟨ts, dict, []⟩ fuel rest with
          | error e =>
            simp only [h4] at hsucc
            cases hsucc
          | ok ds2 =>
            simp only [h4] at hsucc
            cases hsucc
            exact h2

theorem c7_unsupported_transfer_syntax_witness :
    decodeMetaGroup 9 sampleMetaBytes = .ok (sampleMetaElems, []) ∧
    resolveMetaTable (buildMetaTable sampleMetaElems) =
      .ok sampleResolvedMeta ∧
    builtinRegistry.find?
      (fun ts => ts.uid == sampleResolvedMeta.transferSyntaxUid) = none ∧
    (resolveTransferSyntax builtinRegistry
        sampleResolvedMeta.transferSyntaxUid =
      .error (.unsupportedTransferSyntax
        sampleResolvedMeta.transferSyntaxUid) ∧
    openFile builtinRegistry [] 9 sampleMetaBytes =
      .recoverableFailure (buildMetaTable sampleMetaElems)
        (.unsupportedTransferSyntax
          sampleResolvedMeta.transferSyntaxUid) ∧
    (∀ (bytes2 : List Byte) (rest2 : List Byte),
      decodeMetaGroup 9 bytes2 = .ok (sampleMetaElems, rest2) →
      openFile builtinRegistry [] 9 bytes2 =
        openFile builtinRegistry [] 9 sampleMetaBytes)) :=
  ⟨rfl, rfl, by decide,
    c7_unsupported_transfer_syntax builtinRegistry [] 9 sampleMetaBytes
      sampleMetaElems [] sampleResolvedMeta rfl rfl (by decide)⟩

theorem runDumpLoop_no_failfirst (files : List FileResult) :
    ∀ errors : Nat,
      (runDumpLoop false files errors).1 =
        ((errors + countFailed files : Nat) : Int) := by
  induction files with
  | nil =>
    intro errors
    simp [runDumpLoop, countFailed]
  | cons r rest ih =>
    intro errors
    have hcount : ∀ b : Bool,
        countFailed (FileResult.dumpError b :: rest) =
          countFailed rest + 1 := by
      intro b
      simp [countFailed, List.countP_cons]
    cases r with
    | readError =>
      simp only [runDumpLoop, Bool.false_eq_true, if_false]
      rw [ih (errors + 1)]
      have h2 : countFailed (FileResult.readError :: rest) =
          countFailed rest + 1 := by
        simp [countFailed, List.countP_cons]
      rw [h2]
      push_cast
      ring
    | dumpError broken =>
      cases broken with
      | true =>
        simp only [runDumpLoop]
        rw [ih (errors + 1), hcount true]
        push_cast
        ring
      | false =>
        simp only [runDumpLoop, Bool.false_eq_true, if_false]
        rw [ih (errors + 1), hcount false]
        push_cast
        ring
    | dumped =>
      simp only [runDumpLoop]
      rw [ih errors]
      have h2 : countFailed (FileResult.dumped :: rest) =
          countFailed rest := by
        simp [countFailed, List.countP_cons]
      rw [h2]

/-- C9: in the dump tool, a read failure on a single input file exits
with code -2 whether or not the fail-first flag was passed, because run
forces fail-first on a single file; with several files and no
fail-first flag the loop continues past failures and the exit code is
the number of failed files. -/
theorem c9_dump_exit_code (flag : Bool) (files : List FileResult) :
    (runDump flag [FileResult.readError]).1 = ERROR_READ ∧
    (2 ≤ files.length →
      (runDump false files).1 = ((countFailed files : Nat) : Int)) := by
  constructor
  · simp [runDump, runDumpLoop]
  · intro hlen
    have hne : (files.length == 1) = false := by
      simp only [beq_eq_false_iff_ne]
      omega
    unfold runDump
    rw [hne]
    simpa using runDumpLoop_no_failfirst files 0

/-- C10: a broken-pipe failure while dumping a file prints no error
message and never takes the fail-first early exit; the loop carries on
exactly as if the file were absent but with the error count, and hence
the final exit code, one higher. -/
theorem c10_broken_pipe_counted_silently (failFirst : Bool)
    (pre post : List FileResult) (errors : Nat) :
    runDumpLoop failFirst (pre ++ FileResult.dumpError true :: post)
        errors =
      runDumpLoop failFirst (pre ++ post) (errors + 1) ∧
    runDumpLoop failFirst [FileResult.dumpError true] errors =
      (((errors + 1 : Nat) : Int), 0) := by
  constructor
  · induction pre generalizing errors with
    | nil => rfl
    | cons r pre ih =>
      cases r with
      | readError =>
        cases failFirst with
        | true => rfl
        | false =>
          simp only [List.cons_append, runDumpLoop, Bool.false_eq_true,
            if_false, List.append_eq]
          rw [ih (errors + 1)]
      | dumpError broken =>
        cases broken with
        | true =>
          simp only [List.cons_append, runDumpLoop]
          exact ih (errors + 1)
        | false =>
          cases failFirst with
          | true => rfl
          | false =>
            simp only [List.cons_append, runDumpLoop, Bool.false_eq_true,
              if_false, List.append_eq]
            rw [ih (errors + 1)]
      | dumped =>
        simp only [List.cons_append, runDumpLoop]
        exact ih errors
  · rfl

end Dicom
